import Mathlib

/-!
Verification of the parallel_worlds task-graph scheduler.

A shallow embedding of the scheduler core of the `parallel_worlds` package
(`scheduler.py`, `runtime_control.py`, `execution.py`, `state.py`), together
with theorems settling the behavioural claims about it.

Python dictionaries are modelled as association lists (`List (String × _)`),
which preserves insertion order the way CPython dicts do; Python `int` is
modelled as `Int` where a value can be negative (e.g. `retry_limit`) and as
`Nat` for counters that only grow (`attempts`, slot counts).  Values that can
be absent (`dict.get`) are `Option`s.  Functions that call `die` are modelled
in `Except String`.
-/

namespace ParallelWorlds

/-- The seven task statuses of `TaskState` (`scheduler.py` line 63). -/
inductive Status
  | pending
  | running
  | blocked
  | paused
  | done
  | failed
  | stopped
deriving DecidableEq, Repr

/-- The two blocked reasons assigned by `refresh_blocked_states`. -/
inductive BlockedReason
  | dependency
  | failedDependency
deriving DecidableEq, Repr

/-- Model of the wall-clock timestamp string returned by `now_utc`; the claims
never depend on its value. -/
def nowUtc : String := "1970-01-01T00:00:00Z"

/-- Mutable per-run task state (`_initial_task_state` fields). -/
structure TaskState where
  taskId : String
  status : Status
  attempts : Nat
  maxAttempts : Int
  lastError : Option String
  lastExitCode : Option Int
  lastStartedAt : Option String
  lastFinishedAt : Option String
  blockedBy : List String
  blockedReason : Option BlockedReason
deriving DecidableEq, Repr

/-- A task entry of a submitted graph.  `priority`, `parallelizable`,
`status` and `execution.budget.max_attempts` are the `dict` fields the
scheduler reads; `none` stands for a missing (or non-convertible) value. -/
structure Task where
  taskId : String
  priority : Option Int := none
  parallelizable : Bool := true
  statusField : Option String := none
  budgetMaxAttempts : Option Int := none
deriving DecidableEq, Repr

/-- A dependency edge of a submitted graph (`dependencies` entries). -/
structure DepEdge where
  fromTaskId : Option String := none
  toTaskId : Option String := none
  depType : Option String := none
deriving DecidableEq, Repr

/-- A submitted task graph, with the `orchestrator` hints the scheduler reads. -/
structure Graph where
  graphId : Option String := none
  tasks : List Task := []
  dependencies : List DepEdge := []
  orchestratorRetryLimit : Option Int := none
  orchestratorMaxParallel : Option Int := none
deriving Repr

abbrev States := List (String × TaskState)
abbrev Deps := List (String × List String)
abbrev TaskIndex := List (String × Task)

/-- Python `d[k] = v` on a dict that may already hold `k`: replace in place. -/
def aupdate (m : List (String × α)) (k : String) (v : α) : List (String × α) :=
  m.map fun p => if p.1 = k then (k, v) else p

/-- `build_task_index` (`scheduler.py` 22-31): reject falsy and duplicate ids. -/
def buildTaskIndex (tasks : List Task) : Except String TaskIndex :=
  tasks.foldlM (fun index task =>
    if task.taskId = "" then .error "task missing task_id"
    else if (index.lookup task.taskId).isSome then
      .error ("duplicate task_id: " ++ task.taskId)
    else .ok (index ++ [(task.taskId, task)])) []

/-- `build_hard_dependencies` (`scheduler.py` 34-46). -/
def buildHardDependencies (g : Graph) : Deps :=
  let init : Deps := g.tasks.map fun t => (t.taskId, [])
  g.dependencies.foldl (fun deps dep =>
    if dep.depType.getD "hard_block" ≠ "hard_block" then deps
    else
      match dep.toTaskId, dep.fromTaskId with
      | some toTask, some fromTask =>
        if toTask = "" ∨ fromTask = "" then deps
        else
          let deps := if (deps.lookup toTask).isSome then deps else deps ++ [(toTask, [])]
          let cur := (deps.lookup toTask).getD []
          if fromTask ∈ cur then deps else aupdate deps toTask (cur ++ [fromTask])
      | _, _ => deps) init

/-- `_task_max_attempts` (`scheduler.py` 49-58); a missing or non-int budget
value is `none`. -/
def taskMaxAttempts (task : Task) (retryLimit : Int) : Int :=
  let configured := retryLimit + 1
  match task.budgetMaxAttempts with
  | none => configured
  | some b => max 1 (min configured b)

/-- The status-string whitelist of `_initial_task_state` (`scheduler.py` 63). -/
def validStatuses : List String :=
  ["pending", "running", "blocked", "paused", "done", "failed", "stopped"]

/-- Exact parse of a status string; `none` when not one of the seven. -/
def statusFromString (s : String) : Option Status :=
  if s = "pending" then some .pending
  else if s = "running" then some .running
  else if s = "blocked" then some .blocked
  else if s = "paused" then some .paused
  else if s = "done" then some .done
  else if s = "failed" then some .failed
  else if s = "stopped" then some .stopped
  else none

def statusToString : Status → String
  | .pending => "pending"
  | .running => "running"
  | .blocked => "blocked"
  | .paused => "paused"
  | .done => "done"
  | .failed => "failed"
  | .stopped => "stopped"

/-- `task.get("status") or "pending"`: a missing or falsy (empty) value gives
`"pending"`. -/
def rawInitialStatus (task : Task) : String :=
  match task.statusField with
  | none => "pending"
  | some s => if s = "" then "pending" else s

/-- `_initial_task_state` (`scheduler.py` 61-76). -/
def initialTaskState (task : Task) (retryLimit : Int) : TaskState :=
  let raw := rawInitialStatus task
  { taskId := task.taskId
    status := (statusFromString raw).getD .pending
    attempts := 0
    maxAttempts := taskMaxAttempts task retryLimit
    lastError := none
    lastExitCode := none
    lastStartedAt := none
    lastFinishedAt := none
    blockedBy := []
    blockedReason := none }

/-- The run-level record built by `create_run_state` (timestamp fields are
omitted; no claim reads them). -/
structure RunStateModel where
  id : String
  graphId : Option String
  status : String
  maxParallelAgents : Int
  retryLimit : Int
  taskStates : States
deriving Repr

/-- `create_run_state` (`scheduler.py` 79-108).  `fallbackId` models the
`uuid4` run id used when `run_id` is absent. -/
def createRunState (g : Graph) (runId : Option String)
    (maxParallelAgents retryLimit : Option Int) (fallbackId : String) :
    Except String RunStateModel :=
  let resolvedRetryLimit := retryLimit.getD (g.orchestratorRetryLimit.getD 0)
  let resolvedParallel := maxParallelAgents.getD (g.orchestratorMaxParallel.getD 1)
  if resolvedParallel < 1 then .error "max_parallel_agents must be >= 1"
  else if g.tasks = [] then .error "task graph has no tasks"
  else
    .ok { id := (runId.getD fallbackId)
          graphId := g.graphId
          status := "running"
          maxParallelAgents := resolvedParallel
          retryLimit := resolvedRetryLimit
          taskStates := g.tasks.map fun t => (t.taskId, initialTaskState t resolvedRetryLimit) }

/-- Status of a task id in the state map (`task_states.get(tid)`). -/
def statusOf (σ : States) (tid : String) : Option Status :=
  (σ.lookup tid).map (·.status)

/-- `dep_state and dep_state.get("status") == "done"`: a missing dependency
state, like a not-`done` one, does not count as done. -/
def isDoneIn (σ : States) (depId : String) : Bool :=
  match statusOf σ depId with
  | some .done => true
  | _ => false

/-- `dep_state.get("status") in {"failed", "stopped"}` on a present state. -/
def isTerminalIn (σ : States) (depId : String) : Bool :=
  match statusOf σ depId with
  | some .failed => true
  | some .stopped => true
  | _ => false

/-- `_dependencies_satisfied` (`scheduler.py` 111-116). -/
def dependenciesSatisfied (tid : String) (hardDeps : Deps) (σ : States) : Bool :=
  ((hardDeps.lookup tid).getD []).all fun depId => isDoneIn σ depId

/-- `_blocked_by_terminal` (`scheduler.py` 119-127). -/
def blockedByTerminal (tid : String) (hardDeps : Deps) (σ : States) : List String :=
  ((hardDeps.lookup tid).getD []).filter fun depId => isTerminalIn σ depId

/-- One iteration of the `refresh_blocked_states` loop body for `tid`,
reading and updating the current map (the Python loop mutates states in
place while iterating). -/
def refreshOne (hardDeps : Deps) (σ : States) (tid : String) : States :=
  match σ.lookup tid with
  | none => σ
  | some st =>
    if st.status = .pending ∨ st.status = .blocked then
      let blockedBy := ((hardDeps.lookup tid).getD []).filter fun depId =>
        !isDoneIn σ depId
      if blockedBy ≠ [] then
        let terminalBlockers := blockedByTerminal tid hardDeps σ
        aupdate σ tid { st with
          status := .blocked
          blockedBy := blockedBy
          blockedReason :=
            some (if terminalBlockers ≠ [] then .failedDependency else .dependency) }
      else
        aupdate σ tid { st with status := .pending, blockedBy := [], blockedReason := none }
    else σ

/-- `refresh_blocked_states` (`scheduler.py` 130-143): iterate over the keys
in map order, updating in place. -/
def refreshBlockedStates (σ : States) (hardDeps : Deps) : States :=
  (σ.map Prod.fst).foldl (refreshOne hardDeps) σ

/-- Effective priority: `tasks_by_id.get(tid, {}).get("priority", 3)` with a
non-int value falling back to 3. -/
def priorityOf (tasksById : TaskIndex) (tid : String) : Int :=
  match tasksById.lookup tid with
  | some t => t.priority.getD 3
  | none => 3

/-- `tasks_by_id.get(tid, {}).get("parallelizable", True)`. -/
def parallelizableOf (tasksById : TaskIndex) (tid : String) : Bool :=
  match tasksById.lookup tid with
  | some t => t.parallelizable
  | none => true

/-- `_sort_key` (`scheduler.py` 167-173): the pair `(-priority, task_id)`
ordered lexicographically. -/
def sortKey (tasksById : TaskIndex) (tid : String) : Lex (Int × String) :=
  toLex (-(priorityOf tasksById tid), tid)

/-- The comparison `candidates.sort(key=_sort_key)` sorts by. -/
def keyLE (tasksById : TaskIndex) (a b : String) : Prop :=
  sortKey tasksById a ≤ sortKey tasksById b

instance (tasksById : TaskIndex) : DecidableRel (keyLE tasksById) := fun a b =>
  inferInstanceAs (Decidable (sortKey tasksById a ≤ sortKey tasksById b))

instance (tasksById : TaskIndex) : IsTotal String (keyLE tasksById) :=
  ⟨fun a b => le_total (sortKey tasksById a) (sortKey tasksById b)⟩

instance (tasksById : TaskIndex) : IsTrans String (keyLE tasksById) :=
  ⟨fun _ _ _ hab hbc => le_trans hab hbc⟩

instance (tasksById : TaskIndex) : IsRefl String (keyLE tasksById) :=
  ⟨fun a => le_refl (sortKey tasksById a)⟩

/-- The candidate filter of `select_runnable_tasks` (`scheduler.py` 153-162):
pending, not currently running, all hard dependencies done; in map order. -/
def runnableCandidates (σ : States) (hardDeps : Deps)
    (runningTaskIds : List String) : List String :=
  (σ.filter fun p =>
    !runningTaskIds.contains p.1 && p.2.status == .pending
      && dependenciesSatisfied p.1 hardDeps σ).map Prod.fst

/-- `select_runnable_tasks` (`scheduler.py` 146-183).  The slot count is a
`Nat`: the scheduler loop only calls this with a positive slot count. -/
def selectRunnableTasks (tasksById : TaskIndex) (σ : States) (hardDeps : Deps)
    (runningTaskIds : List String) (maxToSchedule : Nat) : List String :=
  let candidates := runnableCandidates σ hardDeps runningTaskIds
  if candidates = [] then []
  else
    let sorted := candidates.insertionSort (keyLE tasksById)
    let nonParallel := sorted.filter fun tid => !parallelizableOf tasksById tid
    if nonParallel ≠ [] then
      if runningTaskIds ≠ [] then [] else nonParallel.take 1
    else sorted.take maxToSchedule

/-- The executor's raw result dict (`{status, error?, exit_code?,
finished_at?}`). -/
structure ExecResult where
  status : Option String := none
  error : Option String := none
  exitCode : Option Int := none
  finishedAt : Option String := none
deriving DecidableEq, Repr

/-- What a call into the executor can do at the call boundary. -/
inductive ExecOutcome
  | raised (msg : String)
  | nonDict
  | returned (r : ExecResult)
deriving DecidableEq, Repr

/-- `_safe_execute` (`scheduler.py` 198-205). -/
def safeExecute (o : ExecOutcome) : ExecResult :=
  match o with
  | .raised msg => { status := some "failed", error := some ("executor error: " ++ msg) }
  | .nonDict => { status := some "failed", error := some "executor returned non-dict result" }
  | .returned r => r

/-- `result.get("status") or "failed"` followed by the whitelist check of
`_apply_result` (`scheduler.py` 209-211). -/
def normalizeResultStatus (r : ExecResult) : String :=
  let s := match r.status with
    | none => "failed"
    | some v => if v = "" then "failed" else v
  if s = "done" ∨ s = "failed" ∨ s = "stopped" ∨ s = "paused" then s else "failed"

/-- `_apply_result` (`scheduler.py` 208-225). -/
def applyResult (st : TaskState) (r : ExecResult) : TaskState :=
  let s := normalizeResultStatus r
  let finishedAt := match r.finishedAt with
    | none => nowUtc
    | some v => if v = "" then nowUtc else v
  let st := { st with
    lastError := r.error
    lastExitCode := r.exitCode
    lastFinishedAt := some finishedAt }
  if s = "failed" then
    if (st.attempts : Int) < st.maxAttempts then { st with status := .pending }
    else { st with status := .failed }
  else if s = "paused" then { st with status := .paused }
  else if s = "stopped" then { st with status := .stopped }
  else { st with status := .done }

/-- `_final_run_status` (`scheduler.py` 228-240), on the list of statuses
(the Python code takes the set of statuses; `all`/`contains` only depend on
membership). -/
def finalRunStatus (σ : States) : String :=
  let statuses := σ.map fun p => p.2.status
  if statuses.all (· == .done) then "completed"
  else if statuses.contains .failed then "failed"
  else if statuses.contains .stopped then "cancelled"
  else if statuses.contains .paused
      && !(statuses.contains .pending || statuses.contains .blocked
            || statuses.contains .running) then "paused"
  else if statuses.all (· == .blocked) then "failed"
  else "running"

/-- The task-status mutation performed when the loop dispatches a runnable
task (`scheduler.py` 287-291). -/
def dispatchUpdate (st : TaskState) : TaskState :=
  { st with
    status := .running
    attempts := st.attempts + 1
    lastStartedAt := some nowUtc
    blockedBy := []
    blockedReason := none }

end ParallelWorlds

namespace ParallelWorlds

/-! ## Claim C1: `select_runnable_tasks` -/

/-- Spec side: the candidate list sorted by `(-priority, task_id)`. -/
def sortedCandidates (tasksById : TaskIndex) (σ : States) (hardDeps : Deps)
    (runningTaskIds : List String) : List String :=
  (runnableCandidates σ hardDeps runningTaskIds).insertionSort (keyLE tasksById)

/-- Spec side: the non-parallelizable candidates in sorted order. -/
def nonParallelSorted (tasksById : TaskIndex) (σ : States) (hardDeps : Deps)
    (runningTaskIds : List String) : List String :=
  (sortedCandidates tasksById σ hardDeps runningTaskIds).filter fun tid =>
    !parallelizableOf tasksById tid


/-- A fresh pending task state, as built for a task with no `status` field. -/
def pendingState (tid : String) (maxAttempts : Int) : TaskState :=
  { taskId := tid
    status := .pending
    attempts := 0
    maxAttempts := maxAttempts
    lastError := none
    lastExitCode := none
    lastStartedAt := none
    lastFinishedAt := none
    blockedBy := []
    blockedReason := none }

/-- C1.  For every task index, task-state map, hard-dependency map, running
id set and slot count, `select_runnable_tasks` returns, out of the candidates
(pending, not running, all hard dependencies done) sorted by
`(-priority, task_id)`: (a) the empty list when a candidate is
non-parallelizable and something is running, (b) exactly the single
highest-priority non-parallelizable candidate, ignoring the slot count, when
a candidate is non-parallelizable and nothing is running, and (c) otherwise
the first `min(maxSlots, |candidates|)` candidates in sorted order. -/
theorem c1_select_runnable_cases (tasksById : TaskIndex) (σ : States)
    (hardDeps : Deps) (running : List String) (maxSlots : Nat) :
    (nonParallelSorted tasksById σ hardDeps running ≠ [] → running ≠ [] →
      selectRunnableTasks tasksById σ hardDeps running maxSlots = [])
    ∧ (nonParallelSorted tasksById σ hardDeps running ≠ [] → running = [] →
      ∃ t, selectRunnableTasks tasksById σ hardDeps running maxSlots = [t]
        ∧ t ∈ runnableCandidates σ hardDeps running
        ∧ parallelizableOf tasksById t = false
        ∧ ∀ u ∈ runnableCandidates σ hardDeps running,
            parallelizableOf tasksById u = false → keyLE tasksById t u)
    ∧ (nonParallelSorted tasksById σ hardDeps running = [] →
      selectRunnableTasks tasksById σ hardDeps running maxSlots
          = (sortedCandidates tasksById σ hardDeps running).take maxSlots
        ∧ (selectRunnableTasks tasksById σ hardDeps running maxSlots).length
          = min maxSlots (runnableCandidates σ hardDeps running).length) := by
  by_cases hc : runnableCandidates σ hardDeps running = []
  · have hsorted : sortedCandidates tasksById σ hardDeps running = [] := by
      simp [sortedCandidates, hc]
    have hnp : nonParallelSorted tasksById σ hardDeps running = [] := by
      simp [nonParallelSorted, hsorted]
    refine ⟨fun h => absurd hnp h, fun h => absurd hnp h, fun _ => ?_⟩
    simp [selectRunnableTasks, hc, hsorted]
  · have hsel : selectRunnableTasks tasksById σ hardDeps running maxSlots
        = if nonParallelSorted tasksById σ hardDeps running ≠ [] then
            (if running ≠ [] then [] else
              (nonParallelSorted tasksById σ hardDeps running).take 1)
          else (sortedCandidates tasksById σ hardDeps running).take maxSlots := by
      simp [selectRunnableTasks, nonParallelSorted, sortedCandidates, hc]
    refine ⟨?_, ?_, ?_⟩
    · intro hnp hrun
      rw [hsel, if_pos hnp, if_pos hrun]
    · intro hnp hrun
      rw [hsel, if_pos hnp, if_neg (by simp [hrun])]
      rcases hnpe : nonParallelSorted tasksById σ hardDeps running with _ | ⟨t, rest⟩
      · exact absurd hnpe hnp
      refine ⟨t, by simp, ?_, ?_, ?_⟩
      · have ht : t ∈ nonParallelSorted tasksById σ hardDeps running := by
          rw [hnpe]; exact List.mem_cons_self t rest
        have := (List.mem_filter).mp ht
        exact (List.mem_insertionSort (keyLE tasksById)).mp this.1
      · have ht : t ∈ nonParallelSorted tasksById σ hardDeps running := by
          rw [hnpe]; exact List.mem_cons_self t rest
        have := (List.mem_filter).mp ht
        simpa using this.2
      · intro u hu hpu
        have hus : u ∈ sortedCandidates tasksById σ hardDeps running :=
          (List.mem_insertionSort (keyLE tasksById)).mpr hu
        have hunp : u ∈ nonParallelSorted tasksById σ hardDeps running :=
          (List.mem_filter).mpr ⟨hus, by simp [hpu]⟩
        have hsort : (sortedCandidates tasksById σ hardDeps running).Sorted
            (keyLE tasksById) :=
          List.sorted_insertionSort (keyLE tasksById) _
        have hnps : (nonParallelSorted tasksById σ hardDeps running).Sorted
            (keyLE tasksById) := List.Pairwise.filter _ hsort
        rw [hnpe] at hnps hunp
        rcases List.mem_cons.mp hunp with h | h
        · exact h ▸ le_refl (sortKey tasksById t)
        · exact List.rel_of_sorted_cons hnps u h
    · intro hnp
      rw [hsel, if_neg (by simp [hnp])]
      refine ⟨rfl, ?_⟩
      rw [List.length_take, sortedCandidates, List.length_insertionSort]

/-- Concrete task index for the `c1` witness: `b` outranks `a` and is
non-parallelizable. -/
def c1IndexNp : TaskIndex :=
  [("a", { taskId := "a" }),
   ("b", { taskId := "b", priority := some 5, parallelizable := false })]

/-- Concrete states for the `c1` witness: both tasks pending, no deps. -/
def c1StatesNp : States := [("a", pendingState "a" 1), ("b", pendingState "b" 1)]

/-- Concrete one-task parallelizable instance for the `c1` witness. -/
def c1IndexPar : TaskIndex := [("a", { taskId := "a" })]

def c1StatesPar : States := [("a", pendingState "a" 1)]

/-- Witness for `c1_select_runnable_cases`, applying case (b) on a map with a
non-parallelizable candidate and case (c) on an all-parallelizable map. -/
theorem c1_select_runnable_cases_witness :
    (∃ t, selectRunnableTasks c1IndexNp c1StatesNp [] [] 2 = [t]
      ∧ t ∈ runnableCandidates c1StatesNp [] []
      ∧ parallelizableOf c1IndexNp t = false
      ∧ ∀ u ∈ runnableCandidates c1StatesNp [] [],
          parallelizableOf c1IndexNp u = false → keyLE c1IndexNp t u)
    ∧ selectRunnableTasks c1IndexPar c1StatesPar [] [] 3
        = (sortedCandidates c1IndexPar c1StatesPar [] []).take 3 :=
  ⟨(c1_select_runnable_cases c1IndexNp c1StatesNp [] [] 2).2.1 (by decide) rfl,
   ((c1_select_runnable_cases c1IndexPar c1StatesPar [] [] 3).2.2 (by decide)).1⟩

/-! ## Association-list lemmas -/

theorem lookup_cons_eq (a : String) (v : α) (m : List (String × α)) :
    List.lookup a ((a, v) :: m) = some v := by
  simp [List.lookup_cons]

theorem lookup_cons_ne (a k : String) (v : α) (m : List (String × α)) (h : k ≠ a) :
    List.lookup k ((a, v) :: m) = List.lookup k m := by
  rw [List.lookup_cons, beq_false_of_ne h]

theorem aupdate_keys (m : List (String × α)) (k : String) (v : α) :
    (aupdate m k v).map Prod.fst = m.map Prod.fst := by
  induction m with
  | nil => rfl
  | cons p m ih =>
    obtain ⟨a, b⟩ := p
    simp only [aupdate, List.map_cons] at ih ⊢
    by_cases h : a = k
    · subst h
      simp [ih]
    · simp [if_neg h, ih]

theorem aupdate_cons_eq (a : String) (b v : α) (m : List (String × α)) :
    aupdate ((a, b) :: m) a v = (a, v) :: aupdate m a v := by
  simp [aupdate]

theorem aupdate_cons_ne (a k : String) (b v : α) (m : List (String × α)) (h : a ≠ k) :
    aupdate ((a, b) :: m) k v = (a, b) :: aupdate m k v := by
  simp [aupdate, h]

theorem lookup_aupdate_self (m : List (String × α)) (k : String) (v : α)
    (h : (m.lookup k).isSome) : (aupdate m k v).lookup k = some v := by
  induction m with
  | nil => simp [List.lookup] at h
  | cons p m ih =>
    obtain ⟨a, b⟩ := p
    by_cases hk : a = k
    · subst hk
      rw [aupdate_cons_eq, lookup_cons_eq]
    · rw [lookup_cons_ne a k b m (fun he => hk he.symm)] at h
      rw [aupdate_cons_ne a k b v m hk, lookup_cons_ne a k b _ (fun he => hk he.symm)]
      exact ih h

theorem lookup_aupdate_ne (m : List (String × α)) (k : String) (v : α)
    (k' : String) (h : k' ≠ k) : (aupdate m k v).lookup k' = m.lookup k' := by
  induction m with
  | nil => rfl
  | cons p m ih =>
    obtain ⟨a, b⟩ := p
    by_cases hk : a = k
    · subst hk
      rw [aupdate_cons_eq, lookup_cons_ne a k' v _ h, lookup_cons_ne a k' b m h]
      exact ih
    · rw [aupdate_cons_ne a k b v m hk]
      by_cases hk' : k' = a
      · subst hk'
        rw [lookup_cons_eq, lookup_cons_eq]
      · rw [lookup_cons_ne a k' b _ hk', lookup_cons_ne a k' b m hk']
        exact ih

theorem lookup_none_aupdate (m : List (String × α)) (k : String) (v : α)
    (h : m.lookup k = none) : (aupdate m k v).lookup k = none := by
  induction m with
  | nil => rfl
  | cons p m ih =>
    obtain ⟨a, b⟩ := p
    by_cases hk : a = k
    · subst hk
      rw [lookup_cons_eq] at h
      exact Option.noConfusion h
    · rw [lookup_cons_ne a k b m (fun he => hk he.symm)] at h
      rw [aupdate_cons_ne a k b v m hk, lookup_cons_ne a k b _ (fun he => hk he.symm)]
      exact ih h

theorem lookup_mem_keys (m : List (String × α)) (k : String) (v : α)
    (h : m.lookup k = some v) : k ∈ m.map Prod.fst := by
  induction m with
  | nil => simp [List.lookup] at h
  | cons p m ih =>
    obtain ⟨a, b⟩ := p
    by_cases hk : k = a
    · simp [hk]
    · rw [lookup_cons_ne a k b m hk] at h
      simp [ih h]

theorem lookup_isSome_of_mem_keys (m : List (String × α)) (k : String)
    (h : k ∈ m.map Prod.fst) : (m.lookup k).isSome := by
  induction m with
  | nil => simp at h
  | cons p m ih =>
    obtain ⟨a, b⟩ := p
    by_cases hk : k = a
    · subst hk
      rw [lookup_cons_eq]
      rfl
    · rw [lookup_cons_ne a k b m hk]
      simp only [List.map_cons, List.mem_cons] at h
      exact ih (h.resolve_left hk)

/-! ## Pointwise characterization of `refresh_blocked_states` -/

/-- The statuses `refresh_blocked_states` touches (`BLOCKABLE_TASK_STATUSES`). -/
abbrev blockableStatus (x : Status) : Prop := x = .pending ∨ x = .blocked

/-- The unmet-predecessor list recomputed by `refresh_blocked_states`. -/
def refreshBlockedBy (σ : States) (hardDeps : Deps) (tid : String) : List String :=
  ((hardDeps.lookup tid).getD []).filter fun depId => !isDoneIn σ depId

/-- The new value `refresh_blocked_states` gives the entry of `tid`, computed
against a fixed snapshot `σ`. -/
def refreshResult (σ : States) (hardDeps : Deps) (tid : String) (st : TaskState) :
    TaskState :=
  if st.status = .pending ∨ st.status = .blocked then
    if refreshBlockedBy σ hardDeps tid ≠ [] then
      { st with
        status := .blocked
        blockedBy := refreshBlockedBy σ hardDeps tid
        blockedReason :=
          some (if blockedByTerminal tid hardDeps σ ≠ [] then .failedDependency
                else .dependency) }
    else { st with status := .pending, blockedBy := [], blockedReason := none }
  else st

theorem refreshResult_of_not_blockable (σ : States) (hardDeps : Deps) (tid : String)
    (st : TaskState) (h : ¬ blockableStatus st.status) :
    refreshResult σ hardDeps tid st = st := by
  rw [refreshResult]
  exact if_neg h

theorem refreshResult_attempts (σ : States) (hardDeps : Deps) (tid : String)
    (st : TaskState) : (refreshResult σ hardDeps tid st).attempts = st.attempts := by
  rw [refreshResult]
  split
  · split <;> rfl
  · rfl

theorem refreshResult_maxAttempts (σ : States) (hardDeps : Deps) (tid : String)
    (st : TaskState) :
    (refreshResult σ hardDeps tid st).maxAttempts = st.maxAttempts := by
  rw [refreshResult]
  split
  · split <;> rfl
  · rfl

theorem refreshResult_status (σ : States) (hardDeps : Deps) (tid : String)
    (st : TaskState) :
    refreshResult σ hardDeps tid st = st
      ∨ (blockableStatus st.status
          ∧ blockableStatus (refreshResult σ hardDeps tid st).status) := by
  rw [refreshResult]
  by_cases h : st.status = .pending ∨ st.status = .blocked
  · rw [if_pos h]
    right
    refine ⟨h, ?_⟩
    split
    · exact Or.inr rfl
    · exact Or.inl rfl
  · rw [if_neg h]
    exact Or.inl rfl

theorem refreshResult_status_iff (σ : States) (hardDeps : Deps) (tid : String)
    (st : TaskState) (x : Status) (hx : ¬ blockableStatus x) :
    (refreshResult σ hardDeps tid st).status = x ↔ st.status = x := by
  rcases refreshResult_status σ hardDeps tid st with h | ⟨h₁, h₂⟩
  · rw [h]
  · constructor
    · intro he
      exact absurd (he ▸ h₂) hx
    · intro he
      exact absurd (he ▸ h₁) hx

theorem isDoneIn_eq_decide (σ : States) (d : String) :
    isDoneIn σ d = decide (statusOf σ d = some .done) := by
  rw [isDoneIn]
  rcases statusOf σ d with _ | s
  · simp
  · cases s <;> simp

theorem isTerminalIn_eq_decide (σ : States) (d : String) :
    isTerminalIn σ d
      = decide (statusOf σ d = some .failed ∨ statusOf σ d = some .stopped) := by
  rw [isTerminalIn]
  rcases statusOf σ d with _ | s
  · simp
  · cases s <;> simp

/-- The single-pass snapshot invariant: an intermediate map whose entries
are the original ones, refreshed for the already-processed keys `P`. -/
def RefreshedUpTo (σ : States) (hardDeps : Deps) (P : List String)
    (σ' : States) : Prop :=
  ∀ tid, σ'.lookup tid = (σ.lookup tid).map fun st =>
    if tid ∈ P then refreshResult σ hardDeps tid st else st

theorem refreshedUpTo_statusOf_iff (σ : States) (hardDeps : Deps) (P : List String)
    (σ' : States) (h : RefreshedUpTo σ hardDeps P σ') (d : String) (x : Status)
    (hx : ¬ blockableStatus x) : statusOf σ' d = some x ↔ statusOf σ d = some x := by
  rw [statusOf, statusOf, h d]
  rcases hd : σ.lookup d with _ | st
  · simp
  · by_cases hP : d ∈ P
    · simp only [Option.map_some', if_pos hP, Option.some.injEq]
      exact refreshResult_status_iff σ hardDeps d st x hx
    · simp [if_neg hP]

theorem refreshedUpTo_isDoneIn (σ : States) (hardDeps : Deps) (P : List String)
    (σ' : States) (h : RefreshedUpTo σ hardDeps P σ') (d : String) :
    isDoneIn σ' d = isDoneIn σ d := by
  rw [isDoneIn_eq_decide, isDoneIn_eq_decide]
  exact decide_eq_decide.mpr
    (refreshedUpTo_statusOf_iff σ hardDeps P σ' h d .done (by simp))

theorem refreshedUpTo_isTerminalIn (σ : States) (hardDeps : Deps) (P : List String)
    (σ' : States) (h : RefreshedUpTo σ hardDeps P σ') (d : String) :
    isTerminalIn σ' d = isTerminalIn σ d := by
  rw [isTerminalIn_eq_decide, isTerminalIn_eq_decide]
  refine decide_eq_decide.mpr (or_congr ?_ ?_)
  · exact refreshedUpTo_statusOf_iff σ hardDeps P σ' h d .failed (by simp)
  · exact refreshedUpTo_statusOf_iff σ hardDeps P σ' h d .stopped (by simp)

theorem refreshOne_refreshedUpTo (σ : States) (hardDeps : Deps) (P : List String)
    (σ' : States) (h : RefreshedUpTo σ hardDeps P σ') (k : String) (hk : k ∉ P) :
    RefreshedUpTo σ hardDeps (k :: P) (refreshOne hardDeps σ' k) := by
  have hlk : σ'.lookup k = σ.lookup k := by
    rw [h k]
    rcases hd : σ.lookup k with _ | st
    · rfl
    · simp [if_neg hk]
  have hother : ∀ tid, tid ≠ k →
      (refreshOne hardDeps σ' k).lookup tid = σ'.lookup tid := by
    intro tid ht
    rw [refreshOne]
    rcases σ'.lookup k with _ | st
    · rfl
    · dsimp only
      split
      · split
        · exact lookup_aupdate_ne σ' k _ tid ht
        · exact lookup_aupdate_ne σ' k _ tid ht
      · rfl
  have hmem : ∀ tid, tid ≠ k → (tid ∈ k :: P ↔ tid ∈ P) := by
    intro tid ht
    simp [List.mem_cons, ht]
  intro tid
  by_cases ht : tid = k
  · subst ht
    rcases hor : σ.lookup tid with _ | st
    · have hnone : σ'.lookup tid = none := by rw [hlk, hor]
      have hre : refreshOne hardDeps σ' tid = σ' := by
        rw [refreshOne, hnone]
      rw [hre, hnone]
      rfl
    · have hsome : σ'.lookup tid = some st := by rw [hlk, hor]
      have hbb : (((hardDeps.lookup tid).getD []).filter
            fun depId => !isDoneIn σ' depId)
          = refreshBlockedBy σ hardDeps tid := by
        rw [refreshBlockedBy]
        exact List.filter_congr fun d _ => by
          rw [refreshedUpTo_isDoneIn σ hardDeps P σ' h d]
      have hbt : blockedByTerminal tid hardDeps σ'
          = blockedByTerminal tid hardDeps σ := by
        rw [blockedByTerminal, blockedByTerminal]
        exact List.filter_congr fun d _ => by
          rw [refreshedUpTo_isTerminalIn σ hardDeps P σ' h d]
      have hupd : refreshOne hardDeps σ' tid
          = if st.status = .pending ∨ st.status = .blocked then
              aupdate σ' tid (refreshResult σ hardDeps tid st)
            else σ' := by
        rw [refreshOne, hsome]
        dsimp only
        rw [hbb, hbt, refreshResult]
        by_cases hbl : st.status = .pending ∨ st.status = .blocked
        · simp only [if_pos hbl, apply_ite (aupdate σ' tid)]
        · simp only [if_neg hbl]
      rw [hupd]
      by_cases hbl : st.status = .pending ∨ st.status = .blocked
      · rw [if_pos hbl, lookup_aupdate_self σ' tid _ (by rw [hsome]; rfl)]
        simp
      · rw [if_neg hbl, hsome]
        simp [refreshResult_of_not_blockable σ hardDeps tid st hbl]
  · rw [hother tid ht, h tid]
    rcases σ.lookup tid with _ | st
    · rfl
    · show some (if tid ∈ P then refreshResult σ hardDeps tid st else st)
        = some (if tid ∈ k :: P then refreshResult σ hardDeps tid st else st)
      exact congrArg some (if_congr (hmem tid ht).symm rfl rfl)

theorem refresh_fold_refreshedUpTo (σ : States) (hardDeps : Deps) :
    ∀ (K P : List String) (σ' : States), K.Nodup → (∀ k ∈ K, k ∉ P) →
    RefreshedUpTo σ hardDeps P σ' →
    RefreshedUpTo σ hardDeps (P ++ K) (K.foldl (refreshOne hardDeps) σ') := by
  intro K
  induction K with
  | nil =>
    intro P σ' _ _ h
    simpa using h
  | cons k K ih =>
    intro P σ' hnd hdisj h
    have h1 : RefreshedUpTo σ hardDeps (k :: P) (refreshOne hardDeps σ' k) :=
      refreshOne_refreshedUpTo σ hardDeps P σ' h k (hdisj k (List.mem_cons_self k K))
    have h2 := ih (k :: P) (refreshOne hardDeps σ' k) (List.Nodup.of_cons hnd)
      (fun k' hk' => by
        rcases List.nodup_cons.mp hnd with ⟨hknk, _⟩
        simp only [List.mem_cons]
        push_neg
        exact ⟨fun he => hknk (he ▸ hk'), hdisj k' (List.mem_cons_of_mem k hk')⟩) h1
    intro tid
    rw [List.foldl_cons, h2 tid]
    rcases σ.lookup tid with _ | st
    · rfl
    · show some (if tid ∈ k :: P ++ K then refreshResult σ hardDeps tid st else st)
        = some (if tid ∈ P ++ k :: K then refreshResult σ hardDeps tid st else st)
      refine congrArg some (if_congr ?_ rfl rfl)
      simp only [List.mem_cons, List.mem_append, List.mem_cons]
      tauto

/-- `refresh_blocked_states` computes, for each entry, `refreshResult` against
the pre-pass snapshot: the in-place mutation never changes which dependencies
count as `done` or terminal, so the pass is order-independent. -/
theorem refresh_lookup (σ : States) (hardDeps : Deps)
    (hnd : (σ.map Prod.fst).Nodup) (tid : String) :
    (refreshBlockedStates σ hardDeps).lookup tid
      = (σ.lookup tid).map (refreshResult σ hardDeps tid) := by
  have hbase : RefreshedUpTo σ hardDeps [] σ := by
    intro t
    rcases σ.lookup t with _ | st <;> simp
  have h := refresh_fold_refreshedUpTo σ hardDeps (σ.map Prod.fst) [] σ hnd
    (by simp) hbase tid
  rw [refreshBlockedStates, h]
  rcases ht : σ.lookup tid with _ | st
  · rfl
  · simp only [Option.map_some']
    rw [if_pos]
    simpa using lookup_mem_keys σ tid st ht

/-! ## The scheduler loop as a transition system -/

theorem refreshOne_keys (hardDeps : Deps) (σ : States) (k : String) :
    (refreshOne hardDeps σ k).map Prod.fst = σ.map Prod.fst := by
  rw [refreshOne]
  rcases σ.lookup k with _ | st
  · rfl
  · dsimp only
    split
    · split
      · exact aupdate_keys σ k _
      · exact aupdate_keys σ k _
    · rfl

theorem refresh_fold_keys (hardDeps : Deps) :
    ∀ (K : List String) (σ : States),
    (K.foldl (refreshOne hardDeps) σ).map Prod.fst = σ.map Prod.fst := by
  intro K
  induction K with
  | nil => intro σ; rfl
  | cons k K ih =>
    intro σ
    rw [List.foldl_cons, ih (refreshOne hardDeps σ k), refreshOne_keys]

theorem refresh_keys (σ : States) (hardDeps : Deps) :
    (refreshBlockedStates σ hardDeps).map Prod.fst = σ.map Prod.fst := by
  rw [refreshBlockedStates]
  exact refresh_fold_keys hardDeps (σ.map Prod.fst) σ

/-- A scheduler loop state: the task-state map plus the ids of the attempts
currently dispatched to the worker pool. -/
structure SchedState where
  states : States
  running : List String
deriving Repr

/-- One observable transition of the scheduler loop `run_task_graph`
(`scheduler.py` 271-340): a `refresh_blocked_states` pass; the dispatch of
one task of the selected batch (lines 283-307: re-checked `pending`, not in
the pool, hard dependencies `done` — the conditions `select_runnable_tasks`
guarantees for each dispatched id); or the application of one completed
attempt's result (lines 323-338).  `allowed` constrains the results the
executor can produce (`fun _ _ => True` for an arbitrary executor). -/
inductive SchedStep (hardDeps : Deps) (allowed : String → ExecResult → Prop) :
    SchedState → SchedState → Prop
  | refresh (s : SchedState) :
      SchedStep hardDeps allowed s ⟨refreshBlockedStates s.states hardDeps, s.running⟩
  | dispatch (s : SchedState) (tid : String) (st : TaskState)
      (hst : s.states.lookup tid = some st) (hp : st.status = .pending)
      (hnr : tid ∉ s.running)
      (hdep : dependenciesSatisfied tid hardDeps s.states = true) :
      SchedStep hardDeps allowed s
        ⟨aupdate s.states tid (dispatchUpdate st), tid :: s.running⟩
  | complete (s : SchedState) (tid : String) (st : TaskState) (r : ExecResult)
      (hrun : tid ∈ s.running) (hall : allowed tid r)
      (hst : s.states.lookup tid = some st) :
      SchedStep hardDeps allowed s
        ⟨aupdate s.states tid (applyResult st r), s.running.erase tid⟩

/-- Reachability along scheduler-loop transitions. -/
def SchedReach (hardDeps : Deps) (allowed : String → ExecResult → Prop) :
    SchedState → SchedState → Prop :=
  Relation.ReflTransGen (SchedStep hardDeps allowed)

/-- Structural well-formedness the loop maintains: distinct task ids,
distinct in-flight ids, and every in-flight id in `running` status. -/
structure SchedWF (s : SchedState) : Prop where
  keysNodup : (s.states.map Prod.fst).Nodup
  runNodup : s.running.Nodup
  runStatus : ∀ tid ∈ s.running,
    ∃ st, s.states.lookup tid = some st ∧ st.status = .running

theorem running_not_blockable : ¬ blockableStatus Status.running := by
  intro h
  rcases h with h | h <;> exact Status.noConfusion h

theorem schedWF_step (hardDeps : Deps) (allowed : String → ExecResult → Prop)
    (s s' : SchedState) (hwf : SchedWF s) (h : SchedStep hardDeps allowed s s') :
    SchedWF s' := by
  cases h with
  | refresh =>
    refine ⟨?_, hwf.runNodup, ?_⟩
    · rw [refresh_keys]
      exact hwf.keysNodup
    · intro tid ht
      rcases hwf.runStatus tid ht with ⟨st, hst, hs⟩
      refine ⟨st, ?_, hs⟩
      rw [refresh_lookup s.states hardDeps hwf.keysNodup tid, hst, Option.map_some']
      rw [refreshResult_of_not_blockable]
      rw [hs]
      exact running_not_blockable
  | dispatch tid st hst hp hnr hdep =>
    refine ⟨?_, ?_, ?_⟩
    · rw [aupdate_keys]
      exact hwf.keysNodup
    · exact List.nodup_cons.mpr ⟨hnr, hwf.runNodup⟩
    · intro tid' ht'
      rcases List.mem_cons.mp ht' with he | hm
      · subst he
        refine ⟨dispatchUpdate st, ?_, rfl⟩
        exact lookup_aupdate_self s.states tid' _ (by rw [hst]; rfl)
      · have hne : tid' ≠ tid := fun he => hnr (he ▸ hm)
        rcases hwf.runStatus tid' hm with ⟨st', hst', hs'⟩
        refine ⟨st', ?_, hs'⟩
        rw [lookup_aupdate_ne s.states tid _ tid' hne]
        exact hst'
  | complete tid st r hrun hall hst =>
    refine ⟨?_, hwf.runNodup.erase tid, ?_⟩
    · rw [aupdate_keys]
      exact hwf.keysNodup
    · intro tid' ht'
      have hmem := (hwf.runNodup.mem_erase_iff).mp ht'
      rcases hwf.runStatus tid' hmem.2 with ⟨st', hst', hs'⟩
      refine ⟨st', ?_, hs'⟩
      rw [lookup_aupdate_ne s.states tid _ tid' hmem.1]
      exact hst'

theorem schedWF_reach (hardDeps : Deps) (allowed : String → ExecResult → Prop)
    (s₀ s : SchedState) (hwf : SchedWF s₀) (h : SchedReach hardDeps allowed s₀ s) :
    SchedWF s := by
  induction h with
  | refl => exact hwf
  | tail _ hstep ih => exact schedWF_step hardDeps allowed _ _ ih hstep

/-- The task statuses the loop never leaves once entered (no transition reads
them): `done`, `failed`, `stopped`, `paused`. -/
def terminalStatus (x : Status) : Prop :=
  x = .done ∨ x = .failed ∨ x = .stopped ∨ x = .paused

theorem terminal_not_blockable (x : Status) (h : terminalStatus x) :
    ¬ blockableStatus x := by
  rcases h with h | h | h | h <;> subst h <;> intro hb <;>
    rcases hb with hb | hb <;> exact Status.noConfusion hb

theorem terminal_not_pending (x : Status) (h : terminalStatus x) : x ≠ .pending := by
  rcases h with h | h | h | h <;> subst h <;> exact fun he => Status.noConfusion he

theorem terminal_not_running (x : Status) (h : terminalStatus x) : x ≠ .running := by
  rcases h with h | h | h | h <;> subst h <;> exact fun he => Status.noConfusion he

/-- A task whose status is terminal keeps its entire state record across any
single loop transition. -/
theorem terminal_step (hardDeps : Deps) (allowed : String → ExecResult → Prop)
    (s s' : SchedState) (tid : String) (st : TaskState) (hwf : SchedWF s)
    (h : SchedStep hardDeps allowed s s') (hst : s.states.lookup tid = some st)
    (ht : terminalStatus st.status) : s'.states.lookup tid = some st := by
  cases h with
  | refresh =>
    show (refreshBlockedStates s.states hardDeps).lookup tid = some st
    rw [refresh_lookup s.states hardDeps hwf.keysNodup tid, hst, Option.map_some',
      refreshResult_of_not_blockable _ _ _ _ (terminal_not_blockable _ ht)]
  | dispatch tid' st' hst' hp' hnr' hdep' =>
    show (aupdate s.states tid' (dispatchUpdate st')).lookup tid = some st
    have hne : tid ≠ tid' := by
      intro he
      subst he
      rw [hst] at hst'
      exact terminal_not_pending st.status ht (by rw [Option.some_inj.mp hst']; exact hp')
    rw [lookup_aupdate_ne s.states tid' _ tid hne]
    exact hst
  | complete tid' st' r hrun' hall' hst' =>
    show (aupdate s.states tid' (applyResult st' r)).lookup tid = some st
    have hne : tid ≠ tid' := by
      intro he
      subst he
      rcases hwf.runStatus tid hrun' with ⟨st'', hst'', hs''⟩
      rw [hst] at hst''
      exact terminal_not_running st.status ht (by rw [Option.some_inj.mp hst''] ; exact hs'')
    rw [lookup_aupdate_ne s.states tid' _ tid hne]
    exact hst

/-- A task whose status is terminal keeps its state along any loop run. -/
theorem terminal_reach (hardDeps : Deps) (allowed : String → ExecResult → Prop)
    (s₀ s : SchedState) (tid : String) (st : TaskState) (hwf : SchedWF s₀)
    (h : SchedReach hardDeps allowed s₀ s) (hst : s₀.states.lookup tid = some st)
    (ht : terminalStatus st.status) : s.states.lookup tid = some st := by
  induction h with
  | refl => exact hst
  | tail hr hstep ih =>
    exact terminal_step hardDeps allowed _ _ tid st
      (schedWF_reach hardDeps allowed _ _ hwf hr) hstep ih ht

theorem applyResult_attempts (st : TaskState) (r : ExecResult) :
    (applyResult st r).attempts = st.attempts := by
  rw [applyResult]
  dsimp only
  split
  · split <;> rfl
  · split
    · rfl
    · split <;> rfl

theorem applyResult_maxAttempts (st : TaskState) (r : ExecResult) :
    (applyResult st r).maxAttempts = st.maxAttempts := by
  rw [applyResult]
  dsimp only
  split
  · split <;> rfl
  · split
    · rfl
    · split <;> rfl

theorem applyResult_status_cases (st : TaskState) (r : ExecResult) :
    ((applyResult st r).status = .pending ∧ (st.attempts : Int) < st.maxAttempts)
    ∨ ((applyResult st r).status = .failed ∧ ¬ (st.attempts : Int) < st.maxAttempts)
    ∨ (applyResult st r).status = .paused
    ∨ (applyResult st r).status = .stopped
    ∨ (applyResult st r).status = .done := by
  rw [applyResult]
  dsimp only
  split
  · split
    · left
      exact ⟨rfl, by assumption⟩
    · right; left
      exact ⟨rfl, by assumption⟩
  · split
    · right; right; left; rfl
    · split
      · right; right; right; left; rfl
      · right; right; right; right; rfl

/-- When the normalized result status is `"failed"`, `_apply_result` retries
(back to `pending`) below budget and otherwise marks the task `failed`. -/
theorem applyResult_failed_status (st : TaskState) (r : ExecResult)
    (h : normalizeResultStatus r = "failed") :
    (applyResult st r).status
      = (if (st.attempts : Int) < st.maxAttempts then .pending else .failed) := by
  rw [applyResult]
  dsimp only
  rw [if_pos h]
  split <;> rfl

/-- The attempts-budget invariant of claim C2: `attempts` within budget, with
strict room whenever the task can still be dispatched. -/
def AttemptsInv (s : SchedState) : Prop :=
  ∀ tid st, s.states.lookup tid = some st →
    (st.attempts : Int) ≤ st.maxAttempts
      ∧ (blockableStatus st.status → (st.attempts : Int) < st.maxAttempts)

theorem attemptsInv_step (hardDeps : Deps) (allowed : String → ExecResult → Prop)
    (s s' : SchedState) (hwf : SchedWF s) (hinv : AttemptsInv s)
    (h : SchedStep hardDeps allowed s s') : AttemptsInv s' := by
  cases h with
  | refresh =>
    intro tid st' hst'
    replace hst' : (refreshBlockedStates s.states hardDeps).lookup tid = some st' := hst'
    rw [refresh_lookup s.states hardDeps hwf.keysNodup tid] at hst'
    rcases ho : s.states.lookup tid with _ | st
    · rw [ho] at hst'
      exact Option.noConfusion hst'
    · rw [ho, Option.map_some'] at hst'
      have he : st' = refreshResult s.states hardDeps tid st := (Option.some_inj.mp hst').symm
      have hatt : st'.attempts = st.attempts := by
        rw [he, refreshResult_attempts]
      have hmax : st'.maxAttempts = st.maxAttempts := by
        rw [he, refreshResult_maxAttempts]
      rcases hinv tid st ho with ⟨h1, h2⟩
      refine ⟨by rw [hatt, hmax]; exact h1, ?_⟩
      intro hbl
      rcases refreshResult_status s.states hardDeps tid st with hsame | ⟨hb1, _⟩
      · rw [hatt, hmax]
        exact h2 (by rw [he, hsame] at hbl; exact hbl)
      · rw [hatt, hmax]
        exact h2 hb1
  | dispatch tid st hst hp hnr hdep =>
    intro tid' st' hst'
    replace hst' : (aupdate s.states tid (dispatchUpdate st)).lookup tid' = some st' := hst'
    by_cases hne : tid' = tid
    · subst hne
      rw [lookup_aupdate_self s.states tid' _ (by rw [hst]; rfl)] at hst'
      have he : st' = dispatchUpdate st := (Option.some_inj.mp hst').symm
      rcases hinv tid' st hst with ⟨_, h2⟩
      have hlt : (st.attempts : Int) < st.maxAttempts := h2 (Or.inl hp)
      constructor
      · rw [he]
        show ((st.attempts + 1 : Nat) : Int) ≤ st.maxAttempts
        push_cast
        omega
      · intro hbl
        rw [he] at hbl
        exact absurd hbl running_not_blockable
    · rw [lookup_aupdate_ne s.states tid _ tid' hne] at hst'
      exact hinv tid' st' hst'
  | complete tid st r hrun hall hst =>
    intro tid' st' hst'
    replace hst' : (aupdate s.states tid (applyResult st r)).lookup tid' = some st' := hst'
    by_cases hne : tid' = tid
    · subst hne
      rw [lookup_aupdate_self s.states tid' _ (by rw [hst]; rfl)] at hst'
      have he : st' = applyResult st r := (Option.some_inj.mp hst').symm
      rcases hinv tid' st hst with ⟨h1, _⟩
      have hatt : st'.attempts = st.attempts := by rw [he, applyResult_attempts]
      have hmax : st'.maxAttempts = st.maxAttempts := by rw [he, applyResult_maxAttempts]
      refine ⟨by rw [hatt, hmax]; exact h1, ?_⟩
      intro hbl
      rw [hatt, hmax]
      rcases applyResult_status_cases st r with ⟨hs, hlt⟩ | ⟨hs, _⟩ | hs | hs | hs
      · exact hlt
      all_goals {
        rw [← he] at hs
        rw [hs] at hbl
        rcases hbl with hb | hb <;> exact absurd hb (by intro hx; exact Status.noConfusion hx) }
    · rw [lookup_aupdate_ne s.states tid _ tid' hne] at hst'
      exact hinv tid' st' hst'

theorem attemptsInv_reach (hardDeps : Deps) (allowed : String → ExecResult → Prop)
    (s₀ s : SchedState) (hwf : SchedWF s₀) (hinv : AttemptsInv s₀)
    (h : SchedReach hardDeps allowed s₀ s) : AttemptsInv s := by
  induction h with
  | refl => exact hinv
  | tail hr hstep ih =>
    exact attemptsInv_step hardDeps allowed _ _
      (schedWF_reach hardDeps allowed _ _ hwf hr) ih hstep

/-! ## A one-task graph with an always-failing executor (claim C2) -/

def singleTask : Task := { taskId := "A" }

def singleIndex : TaskIndex := [("A", singleTask)]

def singleDeps : Deps := [("A", [])]

/-- The run-start state for the one-task graph `[singleTask]`, as
`create_run_state` builds it. -/
def singleInit (retryLimit : Int) : SchedState :=
  ⟨[("A", initialTaskState singleTask retryLimit)], []⟩

/-- An executor that always reports a failing attempt. -/
def alwaysFailing : String → ExecResult → Prop :=
  fun _ r => normalizeResultStatus r = "failed"

/-- The loop's termination test (`scheduler.py` 311-320): nothing in flight
and nothing runnable after a refresh. -/
def loopExitCond (tasksById : TaskIndex) (hardDeps : Deps) (s : SchedState) : Prop :=
  s.running = []
    ∧ selectRunnableTasks tasksById (refreshBlockedStates s.states hardDeps)
        hardDeps [] 1 = []

theorem lookup_singleton {α : Type} (k tid : String) (v st : α)
    (h : List.lookup tid [(k, v)] = some st) : tid = k ∧ st = v := by
  by_cases hk : tid = k
  · subst hk
    rw [lookup_cons_eq] at h
    exact ⟨rfl, (Option.some_inj.mp h).symm⟩
  · rw [lookup_cons_ne k tid v [] hk] at h
    exact Option.noConfusion h

theorem aupdate_singleton (k : String) (b v : TaskState) :
    aupdate [(k, b)] k v = [(k, v)] := by
  rw [aupdate]
  simp

theorem refresh_single (st : TaskState) :
    refreshBlockedStates [("A", st)] singleDeps
      = if st.status = .pending ∨ st.status = .blocked
        then [("A", { st with status := .pending, blockedBy := [], blockedReason := none })]
        else [("A", st)] := by
  show refreshOne singleDeps [("A", st)] "A" = _
  rw [refreshOne, lookup_cons_eq]
  dsimp only
  by_cases hbl : st.status = .pending ∨ st.status = .blocked
  · rw [if_pos hbl, if_pos hbl, if_neg (by simp [singleDeps, List.lookup_cons])]
    rw [aupdate_singleton]
  · rw [if_neg hbl, if_neg hbl]

theorem select_single_pending (st : TaskState) (h : st.status = .pending) :
    selectRunnableTasks singleIndex [("A", st)] singleDeps [] 1 = ["A"] := by
  rw [selectRunnableTasks, runnableCandidates]
  simp [h, dependenciesSatisfied, singleDeps, singleIndex, singleTask,
    parallelizableOf, List.lookup_cons]

theorem select_single_not_pending (st : TaskState) (h : st.status ≠ .pending) :
    selectRunnableTasks singleIndex [("A", st)] singleDeps [] 1 = [] := by
  rw [selectRunnableTasks, runnableCandidates]
  simp [h, dependenciesSatisfied, singleDeps, singleIndex, singleTask,
    parallelizableOf, List.lookup_cons]

/-- Trace invariant for the one-task always-failing run: the task cycles
`pending → running → pending …` and can only settle in `failed` with a full
budget of attempts. -/
def singleInv (N : Int) (s : SchedState) : Prop :=
  ∃ st, s.states = [("A", st)] ∧ st.maxAttempts = N ∧ (st.attempts : Int) ≤ N ∧
    ((st.status = .pending ∧ (st.attempts : Int) < N ∧ s.running = [])
     ∨ (st.status = .running ∧ s.running = ["A"])
     ∨ (st.status = .failed ∧ (st.attempts : Int) = N ∧ s.running = []))

theorem singleInv_step (N : Int) (s s' : SchedState) (hinv : singleInv N s)
    (h : SchedStep singleDeps alwaysFailing s s') : singleInv N s' := by
  rcases hinv with ⟨st, hstates, hmax, hle, hcases⟩
  cases h with
  | refresh =>
    rcases hcases with ⟨hs, hlt, hrun⟩ | ⟨hs, hrun⟩ | ⟨hs, heq, hrun⟩
    · refine ⟨{ st with status := .pending, blockedBy := [], blockedReason := none },
        ?_, hmax, hle, Or.inl ⟨rfl, hlt, hrun⟩⟩
      show refreshBlockedStates s.states singleDeps = _
      rw [hstates, refresh_single st, if_pos (Or.inl hs)]
    · refine ⟨st, ?_, hmax, hle, Or.inr (Or.inl ⟨hs, hrun⟩)⟩
      show refreshBlockedStates s.states singleDeps = _
      rw [hstates, refresh_single st, if_neg (by rw [hs]; exact running_not_blockable)]
    · refine ⟨st, ?_, hmax, hle, Or.inr (Or.inr ⟨hs, heq, hrun⟩)⟩
      show refreshBlockedStates s.states singleDeps = _
      rw [hstates, refresh_single st,
        if_neg (by rw [hs]; intro hb; rcases hb with hb | hb <;> exact Status.noConfusion hb)]
  | dispatch tid st₀ hst hp hnr hdep =>
    rw [hstates] at hst
    rcases lookup_singleton "A" tid st st₀ hst with ⟨htid, hv⟩
    subst htid
    subst hv
    rcases hcases with ⟨hs, hlt, hrun⟩ | ⟨hs, hrun⟩ | ⟨hs, heq, hrun⟩
    · refine ⟨dispatchUpdate st₀, ?_, hmax, ?_, Or.inr (Or.inl ⟨rfl, ?_⟩)⟩
      · show aupdate s.states "A" (dispatchUpdate st₀) = _
        rw [hstates, aupdate_singleton]
      · show ((st₀.attempts + 1 : Nat) : Int) ≤ N
        have : (st₀.attempts : Int) < N := hlt
        push_cast
        omega
      · show "A" :: s.running = ["A"]
        rw [hrun]
    · exact absurd hp (by rw [hs]; exact fun he => Status.noConfusion he)
    · exact absurd hp (by rw [hs]; exact fun he => Status.noConfusion he)
  | complete tid st₀ r hrun hall hst =>
    rw [hstates] at hst
    rcases lookup_singleton "A" tid st st₀ hst with ⟨htid, hv⟩
    subst htid
    subst hv
    rcases hcases with ⟨hs, hlt, hrunl⟩ | ⟨hs, hrunl⟩ | ⟨hs, heq, hrunl⟩
    · rw [hrunl] at hrun
      exact absurd hrun (List.not_mem_nil _)
    · have hall' : normalizeResultStatus r = "failed" := hall
      have hstatus := applyResult_failed_status st₀ r hall'
      have herase : s.running.erase "A" = [] := by
        rw [hrunl]
        rfl
      have hstq : aupdate s.states "A" (applyResult st₀ r) = [("A", applyResult st₀ r)] := by
        rw [hstates, aupdate_singleton]
      by_cases hltq : (st₀.attempts : Int) < st₀.maxAttempts
      · refine ⟨applyResult st₀ r, hstq, ?_, ?_, Or.inl ⟨?_, ?_, herase⟩⟩
        · rw [applyResult_maxAttempts, hmax]
        · rw [applyResult_attempts]
          exact hle
        · rw [hstatus, if_pos hltq]
        · rw [applyResult_attempts]
          rw [hmax] at hltq
          exact hltq
      · refine ⟨applyResult st₀ r, hstq, ?_, ?_, Or.inr (Or.inr ⟨?_, ?_, herase⟩)⟩
        · rw [applyResult_maxAttempts, hmax]
        · rw [applyResult_attempts]
          exact hle
        · rw [hstatus, if_neg hltq]
        · rw [applyResult_attempts]
          rw [hmax] at hltq
          omega
    · rw [hrunl] at hrun
      exact absurd hrun (List.not_mem_nil _)

theorem singleInv_reach (N : Int) (s₀ s : SchedState) (hinv : singleInv N s₀)
    (h : SchedReach singleDeps alwaysFailing s₀ s) : singleInv N s := by
  induction h with
  | refl => exact hinv
  | tail _ hstep ih => exact singleInv_step N _ _ ih hstep

theorem singleInit_inv (N : Int) (h1 : 1 ≤ N) : singleInv N (singleInit (N - 1)) := by
  refine ⟨initialTaskState singleTask (N - 1), rfl, ?_, ?_, Or.inl ⟨?_, ?_, rfl⟩⟩
  · show taskMaxAttempts singleTask (N - 1) = N
    rw [taskMaxAttempts]
    show N - 1 + 1 = N
    omega
  · show ((0 : Nat) : Int) ≤ N
    omega
  · rfl
  · show ((0 : Nat) : Int) < N
    omega

/-- At loop exit the single always-failing task is `failed` with exactly its
whole budget of attempts. -/
theorem singleExit_final (N : Int) (s : SchedState) (hinv : singleInv N s)
    (hexit : loopExitCond singleIndex singleDeps s) :
    ∃ st, s.states.lookup "A" = some st
      ∧ st.status = .failed ∧ (st.attempts : Int) = N := by
  rcases hinv with ⟨st, hstates, hmax, hle, hcases⟩
  rcases hexit with ⟨hrun, hsel⟩
  rw [hstates, refresh_single st] at hsel
  rcases hcases with ⟨hs, hlt, _⟩ | ⟨hs, hrunl⟩ | ⟨hs, heq, _⟩
  · rw [if_pos (Or.inl hs)] at hsel
    rw [select_single_pending _ rfl] at hsel
    exact absurd hsel (by simp)
  · rw [hrunl] at hrun
    exact List.noConfusion hrun
  · refine ⟨st, ?_, hs, heq⟩
    rw [hstates, lookup_cons_eq]

/-- C2 (amended).  Along every scheduler run whose tasks start with
`attempts = 0` and a positive budget (`max_attempts ≥ 1`, which holds
whenever the resolved retry limit is nonnegative): (i) `attempts` never
exceeds `max_attempts`; (ii) a `failed` task keeps its state for the rest of
the run; (iii) a single task with `max_attempts = N ≥ 1` whose executor
always returns `failed` holds exactly `N` attempts and is terminally `failed`
at loop exit.  (The unamended claim fails when `retry_limit` is negative and
no budget clamps `max_attempts` to at least 1 — see the counterexample.) -/
theorem c2_attempts_budget :
    (∀ (hardDeps : Deps) (allowed : String → ExecResult → Prop) (s₀ s : SchedState),
      SchedWF s₀ → AttemptsInv s₀ → SchedReach hardDeps allowed s₀ s →
      ∀ tid st, s.states.lookup tid = some st → (st.attempts : Int) ≤ st.maxAttempts)
    ∧ (∀ (hardDeps : Deps) (allowed : String → ExecResult → Prop)
        (s₀ s s' : SchedState),
      SchedWF s₀ → SchedReach hardDeps allowed s₀ s → SchedStep hardDeps allowed s s' →
      ∀ tid st, s.states.lookup tid = some st → st.status = .failed →
        s'.states.lookup tid = some st)
    ∧ (∀ N : Int, 1 ≤ N → ∀ s : SchedState,
      SchedReach singleDeps alwaysFailing (singleInit (N - 1)) s →
      loopExitCond singleIndex singleDeps s →
      ∃ st, s.states.lookup "A" = some st ∧ st.status = .failed
        ∧ (st.attempts : Int) = N) := by
  refine ⟨?_, ?_, ?_⟩
  · intro hardDeps allowed s₀ s hwf hinv hreach tid st hst
    exact ((attemptsInv_reach hardDeps allowed s₀ s hwf hinv hreach) tid st hst).1
  · intro hardDeps allowed s₀ s s' hwf hreach hstep tid st hst hfail
    exact terminal_step hardDeps allowed s s' tid st
      (schedWF_reach hardDeps allowed s₀ s hwf hreach) hstep hst
      (Or.inr (Or.inl hfail))
  · intro N hN s hreach hexit
    exact singleExit_final N s
      (singleInv_reach N _ s (singleInit_inv N hN) hreach) hexit

/-- The end state of the two-step trace `dispatch; complete(failed)` on the
one-task graph with `max_attempts = 1`. -/
def c2TraceMid : SchedState :=
  ⟨aupdate [("A", initialTaskState singleTask 0)] "A"
    (dispatchUpdate (initialTaskState singleTask 0)), ["A"]⟩

def c2TraceEnd : SchedState :=
  ⟨aupdate c2TraceMid.states "A"
    (applyResult (dispatchUpdate (initialTaskState singleTask 0))
      { status := some "failed" }), (["A"].erase "A")⟩

/-- Witness for `c2_attempts_budget`: part (i) at a fresh one-task state,
part (ii) across a refresh of a failed task, part (iii) at the end of a
concrete dispatch-then-fail trace with `N = 1`. -/
theorem c2_attempts_budget_witness :
    (((pendingState "A" 1).attempts : Int) ≤ (pendingState "A" 1).maxAttempts)
    ∧ (refreshBlockedStates [("A", { pendingState "A" 1 with status := Status.failed })]
        []).lookup "A" = some { pendingState "A" 1 with status := Status.failed }
    ∧ (∃ st, c2TraceEnd.states.lookup "A" = some st ∧ st.status = .failed
        ∧ (st.attempts : Int) = 1) := by
  refine ⟨?_, ?_, ?_⟩
  · exact c2_attempts_budget.1 [] (fun _ _ => True)
      ⟨[("A", pendingState "A" 1)], []⟩ ⟨[("A", pendingState "A" 1)], []⟩
      ⟨by decide, by decide, by simp⟩
      (by
        intro tid st h
        rcases lookup_singleton "A" tid (pendingState "A" 1) st h with ⟨h1, h2⟩
        subst h2
        exact ⟨by decide, fun _ => by decide⟩)
      Relation.ReflTransGen.refl "A" (pendingState "A" 1) (lookup_cons_eq _ _ _)
  · exact c2_attempts_budget.2.1 [] (fun _ _ => True)
      ⟨[("A", { pendingState "A" 1 with status := Status.failed })], []⟩
      ⟨[("A", { pendingState "A" 1 with status := Status.failed })], []⟩
      ⟨refreshBlockedStates [("A", { pendingState "A" 1 with status := Status.failed })] [],
        []⟩
      ⟨by decide, by decide, by simp⟩
      Relation.ReflTransGen.refl
      (SchedStep.refresh _)
      "A" { pendingState "A" 1 with status := Status.failed }
      (lookup_cons_eq _ _ _) rfl
  · refine c2_attempts_budget.2.2 1 (by decide) c2TraceEnd ?_ ?_
    · have h1 : SchedStep singleDeps alwaysFailing (singleInit 0) c2TraceMid :=
        SchedStep.dispatch (singleInit 0) "A" (initialTaskState singleTask 0)
          (lookup_cons_eq _ _ _) (by decide) (by decide) (by decide)
      have h2 : SchedStep singleDeps alwaysFailing c2TraceMid c2TraceEnd :=
        SchedStep.complete c2TraceMid "A" (dispatchUpdate (initialTaskState singleTask 0))
          { status := some "failed" } (by decide)
          (by decide :
            normalizeResultStatus ({ status := some "failed" } : ExecResult) = "failed")
          (by
            show (aupdate [("A", initialTaskState singleTask 0)] "A"
              (dispatchUpdate (initialTaskState singleTask 0))).lookup "A" = _
            rw [aupdate_singleton, lookup_cons_eq])
      exact Relation.ReflTransGen.tail (Relation.ReflTransGen.tail
        Relation.ReflTransGen.refl h1) h2
    · constructor
      · decide
      · decide

/-- Counterexample to C2 as stated: with `retry_limit = -1` and no explicit
budget, `create_run_state` gives the task `max_attempts = 0`, and the very
first dispatch raises `attempts` to `1 > 0`. -/
theorem c2_counterexample :
    createRunState { graphId := some "g", tasks := [singleTask] } none none
        (some (-1)) "rid"
      = .ok { id := "rid", graphId := some "g", status := "running",
              maxParallelAgents := 1, retryLimit := -1,
              taskStates := [("A", initialTaskState singleTask (-1))] }
    ∧ SchedStep singleDeps (fun _ _ => True)
        ⟨[("A", initialTaskState singleTask (-1))], []⟩
        ⟨aupdate [("A", initialTaskState singleTask (-1))] "A"
          (dispatchUpdate (initialTaskState singleTask (-1))), ["A"]⟩
    ∧ (dispatchUpdate (initialTaskState singleTask (-1))).maxAttempts
        < ((dispatchUpdate (initialTaskState singleTask (-1))).attempts : Int) := by
  refine ⟨rfl, ?_, by decide⟩
  exact SchedStep.dispatch ⟨[("A", initialTaskState singleTask (-1))], []⟩ "A"
    (initialTaskState singleTask (-1)) (lookup_cons_eq _ _ _) (by decide) (by simp)
    (by decide)

/-! ## Claim C3: a terminally failed hard dependency blocks its dependents -/

theorem lookup_pair (k1 k2 tid : String) (v1 v2 st : TaskState)
    (h : List.lookup tid [(k1, v1), (k2, v2)] = some st) :
    (tid = k1 ∧ st = v1) ∨ (tid = k2 ∧ st = v2) := by
  by_cases h1 : tid = k1
  · subst h1
    rw [lookup_cons_eq] at h
    exact Or.inl ⟨rfl, (Option.some_inj.mp h).symm⟩
  · rw [lookup_cons_ne k1 tid v1 _ h1] at h
    exact Or.inr (lookup_singleton k2 tid v2 st h)

/-- If `B` ever leaves the pending/blocked pair, its hard dependency `A` must
have been `done` when `B` was dispatched; `A` stays `done` ever since. -/
def DepInv (hardDeps : Deps) (A B : String) (s : SchedState) : Prop :=
  ∀ stB, s.states.lookup B = some stB → ¬ blockableStatus stB.status →
    statusOf s.states A = some .done

theorem done_not_blockable : ¬ blockableStatus Status.done := by decide

theorem statusOf_refresh_done (σ : States) (hardDeps : Deps)
    (hnd : (σ.map Prod.fst).Nodup) (A : String)
    (h : statusOf σ A = some .done) :
    statusOf (refreshBlockedStates σ hardDeps) A = some .done := by
  rw [statusOf] at h ⊢
  rcases hA : σ.lookup A with _ | stA
  · rw [hA] at h
    exact Option.noConfusion h
  · rw [hA, Option.map_some', Option.some_inj] at h
    rw [refresh_lookup σ hardDeps hnd A, hA, Option.map_some',
      refreshResult_of_not_blockable σ hardDeps A stA (by rw [h]; exact done_not_blockable),
      Option.map_some', h]

theorem statusOf_aupdate_ne (σ : States) (k : String) (v : TaskState) (A : String)
    (h : A ≠ k) : statusOf (aupdate σ k v) A = statusOf σ A := by
  rw [statusOf, statusOf, lookup_aupdate_ne σ k v A h]

theorem isDoneIn_true_statusOf (σ : States) (A : String) (h : isDoneIn σ A = true) :
    statusOf σ A = some .done := by
  rw [isDoneIn_eq_decide] at h
  exact of_decide_eq_true h

theorem depsSatisfied_statusOf (tid : String) (hardDeps : Deps) (σ : States)
    (A : String) (hAB : A ∈ (hardDeps.lookup tid).getD [])
    (h : dependenciesSatisfied tid hardDeps σ = true) :
    statusOf σ A = some .done := by
  rw [dependenciesSatisfied, List.all_eq_true] at h
  exact isDoneIn_true_statusOf σ A (h A hAB)

theorem depInv_step (hardDeps : Deps) (allowed : String → ExecResult → Prop)
    (A B : String) (hne : A ≠ B) (hAB : A ∈ (hardDeps.lookup B).getD [])
    (s s' : SchedState) (hwf : SchedWF s) (hinv : DepInv hardDeps A B s)
    (h : SchedStep hardDeps allowed s s') : DepInv hardDeps A B s' := by
  cases h with
  | refresh =>
    intro stB' hstB' hnb
    replace hstB' : (refreshBlockedStates s.states hardDeps).lookup B = some stB' := hstB'
    rw [refresh_lookup s.states hardDeps hwf.keysNodup B] at hstB'
    rcases hB : s.states.lookup B with _ | stB
    · rw [hB] at hstB'
      exact Option.noConfusion hstB'
    · rw [hB, Option.map_some', Option.some_inj] at hstB'
      have hdone : statusOf s.states A = some .done := by
        rcases refreshResult_status s.states hardDeps B stB with hsame | ⟨_, hb2⟩
        · exact hinv stB hB (by rw [hsame.symm.trans hstB']; exact hnb)
        · exact absurd (hstB' ▸ hb2) hnb
      show statusOf (refreshBlockedStates s.states hardDeps) A = some .done
      exact statusOf_refresh_done s.states hardDeps hwf.keysNodup A hdone
  | dispatch tid st hst hp hnr hdep =>
    intro stB' hstB' hnb
    replace hstB' : (aupdate s.states tid (dispatchUpdate st)).lookup B = some stB' := hstB'
    show statusOf (aupdate s.states tid (dispatchUpdate st)) A = some .done
    by_cases htB : tid = B
    · subst htB
      have hdone : statusOf s.states A = some .done :=
        depsSatisfied_statusOf tid hardDeps s.states A hAB hdep
      rw [statusOf_aupdate_ne s.states tid _ A hne]
      exact hdone
    · rw [lookup_aupdate_ne s.states tid _ B (fun he => htB he.symm)] at hstB'
      have hdone : statusOf s.states A = some .done := hinv stB' hstB' hnb
      have hAne : A ≠ tid := by
        intro he
        subst he
        rw [statusOf, hst, Option.map_some', Option.some_inj] at hdone
        rw [hdone] at hp
        exact Status.noConfusion hp
      rw [statusOf_aupdate_ne s.states tid _ A hAne]
      exact hdone
  | complete tid st r hrun hall hst =>
    intro stB' hstB' hnb
    replace hstB' : (aupdate s.states tid (applyResult st r)).lookup B = some stB' := hstB'
    show statusOf (aupdate s.states tid (applyResult st r)) A = some .done
    rcases hwf.runStatus tid hrun with ⟨st₀, hst₀, hs₀⟩
    rw [hst₀] at hst
    have hsteq : st = st₀ := (Option.some_inj.mp hst).symm
    subst hsteq
    by_cases htB : tid = B
    · subst htB
      have hdone : statusOf s.states A = some .done :=
        hinv st hst₀ (by rw [hs₀]; exact running_not_blockable)
      rw [statusOf_aupdate_ne s.states tid _ A hne]
      exact hdone
    · rw [lookup_aupdate_ne s.states tid _ B (fun he => htB he.symm)] at hstB'
      have hdone : statusOf s.states A = some .done := hinv stB' hstB' hnb
      have hAne : A ≠ tid := by
        intro he
        subst he
        rw [statusOf, hst₀, Option.map_some', Option.some_inj] at hdone
        rw [hdone] at hs₀
        exact Status.noConfusion hs₀
      rw [statusOf_aupdate_ne s.states tid _ A hAne]
      exact hdone

theorem depInv_reach (hardDeps : Deps) (allowed : String → ExecResult → Prop)
    (A B : String) (hne : A ≠ B) (hAB : A ∈ (hardDeps.lookup B).getD [])
    (s₀ s : SchedState) (hwf : SchedWF s₀) (hinv : DepInv hardDeps A B s₀)
    (h : SchedReach hardDeps allowed s₀ s) : DepInv hardDeps A B s := by
  induction h with
  | refl => exact hinv
  | tail hr hstep ih =>
    exact depInv_step hardDeps allowed A B hne hAB _ _
      (schedWF_reach hardDeps allowed _ _ hwf hr) ih hstep

theorem terminal_dep_not_done (stA : TaskState)
    (hterm : stA.status = .failed ∨ stA.status = .stopped) (σ : States) (A : String)
    (hA : σ.lookup A = some stA) : statusOf σ A ≠ some .done := by
  intro heq
  rw [statusOf, hA, Option.map_some', Option.some_inj] at heq
  rcases hterm with ht | ht <;> rw [heq] at ht <;> exact Status.noConfusion ht

/-- A refresh pass over a map in which `A` is terminally `failed`/`stopped`
and `B` (hard-depending on `A`) is pending or blocked leaves `B` `blocked`
with `blocked_reason = failed_dependency` and `A` among `blocked_by`. -/
theorem refresh_blocks_dependent (hardDeps : Deps) (A B : String)
    (hAB : A ∈ (hardDeps.lookup B).getD []) (σ : States)
    (hnd : (σ.map Prod.fst).Nodup) (stA : TaskState) (hA : σ.lookup A = some stA)
    (hterm : stA.status = .failed ∨ stA.status = .stopped) (stB : TaskState)
    (hB : σ.lookup B = some stB) (hbl : blockableStatus stB.status) :
    (refreshBlockedStates σ hardDeps).lookup B
      = some { stB with
          status := .blocked
          blockedBy := refreshBlockedBy σ hardDeps B
          blockedReason := some .failedDependency }
    ∧ A ∈ refreshBlockedBy σ hardDeps B := by
  have hmem : A ∈ refreshBlockedBy σ hardDeps B := by
    rw [refreshBlockedBy]
    refine List.mem_filter.mpr ⟨hAB, ?_⟩
    rw [Bool.not_eq_true', isDoneIn_eq_decide, decide_eq_false_iff_not]
    exact terminal_dep_not_done stA hterm σ A hA
  refine ⟨?_, hmem⟩
  rw [refresh_lookup σ hardDeps hnd B, hB, Option.map_some', Option.some_inj]
  rw [refreshResult, if_pos hbl, if_pos (List.ne_nil_of_mem hmem)]
  have htermA : A ∈ blockedByTerminal B hardDeps σ := by
    rw [blockedByTerminal]
    refine List.mem_filter.mpr ⟨hAB, ?_⟩
    rw [isTerminalIn_eq_decide, decide_eq_true_eq, statusOf, hA, Option.map_some']
    rcases hterm with ht | ht
    · exact Or.inl (by rw [ht])
    · exact Or.inr (by rw [ht])
  rw [if_pos (List.ne_nil_of_mem htermA)]

/-- C3.  On a run whose tasks all start `pending`, once a hard dependency `A`
of `B` is terminally `failed` (or `stopped`): `A`'s state never changes
again; `B` stays in the pending/blocked pair (so it is never `running`);
every refresh pass leaves `B` `blocked` with
`blocked_reason = failed_dependency` and `A` listed in `blocked_by`; and once
`B` is `blocked` no transition ever moves it away (in particular never back
to `pending`). -/
theorem c3_failed_dependency_blocks (hardDeps : Deps)
    (allowed : String → ExecResult → Prop) (A B : String) (hne : A ≠ B)
    (hAB : A ∈ (hardDeps.lookup B).getD []) (s₀ : SchedState)
    (hwf₀ : SchedWF s₀)
    (hpend : ∀ tid st, s₀.states.lookup tid = some st → st.status = .pending)
    (s₁ : SchedState) (h01 : SchedReach hardDeps allowed s₀ s₁)
    (stA : TaskState) (hA1 : s₁.states.lookup A = some stA)
    (hterm : stA.status = .failed ∨ stA.status = .stopped)
    (s₂ : SchedState) (h12 : SchedReach hardDeps allowed s₁ s₂) :
    s₂.states.lookup A = some stA
    ∧ (∀ stB, s₂.states.lookup B = some stB → blockableStatus stB.status)
    ∧ (∀ stB, s₂.states.lookup B = some stB →
        (refreshBlockedStates s₂.states hardDeps).lookup B
          = some { stB with
              status := .blocked
              blockedBy := refreshBlockedBy s₂.states hardDeps B
              blockedReason := some .failedDependency }
          ∧ A ∈ refreshBlockedBy s₂.states hardDeps B)
    ∧ (∀ s₃, SchedStep hardDeps allowed s₂ s₃ →
        ∀ stB, s₂.states.lookup B = some stB → stB.status = .blocked →
        ∀ stB', s₃.states.lookup B = some stB' → stB'.status = .blocked) := by
  have hwf1 : SchedWF s₁ := schedWF_reach hardDeps allowed s₀ s₁ hwf₀ h01
  have hwf2 : SchedWF s₂ := schedWF_reach hardDeps allowed s₁ s₂ hwf1 h12
  have htermT : terminalStatus stA.status := by
    rcases hterm with ht | ht
    · exact Or.inr (Or.inl ht)
    · exact Or.inr (Or.inr (Or.inl ht))
  have hA2 : s₂.states.lookup A = some stA :=
    terminal_reach hardDeps allowed s₁ s₂ A stA hwf1 h12 hA1 htermT
  have hdep₀ : DepInv hardDeps A B s₀ := by
    intro stB hB hnb
    exact absurd (Or.inl (hpend B stB hB)) hnb
  have hdep₂ : DepInv hardDeps A B s₂ :=
    depInv_reach hardDeps allowed A B hne hAB s₀ s₂ hwf₀ hdep₀
      (Relation.ReflTransGen.trans h01 h12)
  have hblockable : ∀ stB, s₂.states.lookup B = some stB → blockableStatus stB.status := by
    intro stB hB
    by_contra hnb
    exact terminal_dep_not_done stA hterm s₂.states A hA2 (hdep₂ stB hB hnb)
  have hrefreshB : ∀ stB, s₂.states.lookup B = some stB →
      (refreshBlockedStates s₂.states hardDeps).lookup B
        = some { stB with
            status := .blocked
            blockedBy := refreshBlockedBy s₂.states hardDeps B
            blockedReason := some .failedDependency }
        ∧ A ∈ refreshBlockedBy s₂.states hardDeps B := by
    intro stB hB
    exact refresh_blocks_dependent hardDeps A B hAB s₂.states hwf2.keysNodup
      stA hA2 hterm stB hB (hblockable stB hB)
  refine ⟨hA2, hblockable, hrefreshB, ?_⟩
  intro s₃ hstep stB hB hblocked stB' hB'
  cases hstep with
  | refresh =>
    replace hB' : (refreshBlockedStates s₂.states hardDeps).lookup B = some stB' := hB'
    rw [(hrefreshB stB hB).1, Option.some_inj] at hB'
    rw [← hB']
  | dispatch tid st hst hp hnr hdep =>
    replace hB' : (aupdate s₂.states tid (dispatchUpdate st)).lookup B = some stB' := hB'
    by_cases htB : tid = B
    · subst htB
      rw [hB, Option.some_inj] at hst
      rw [hst] at hblocked
      rw [hblocked] at hp
      exact Status.noConfusion hp
    · rw [lookup_aupdate_ne s₂.states tid _ B (fun he => htB he.symm), hB,
        Option.some_inj] at hB'
      rw [← hB']
      exact hblocked
  | complete tid st r hrun hall hst =>
    replace hB' : (aupdate s₂.states tid (applyResult st r)).lookup B = some stB' := hB'
    by_cases htB : tid = B
    · subst htB
      rcases hwf2.runStatus tid hrun with ⟨st₀, hst₀, hs₀⟩
      rw [hB, Option.some_inj] at hst₀
      rw [← hst₀] at hs₀
      rw [hblocked] at hs₀
      exact Status.noConfusion hs₀
    · rw [lookup_aupdate_ne s₂.states tid _ B (fun he => htB he.symm), hB,
        Option.some_inj] at hB'
      rw [← hB']
      exact hblocked

/-- Hard deps of the two-task witness graph: `B` hard-depends on `A`. -/
def c3deps : Deps := [("A", []), ("B", ["A"])]

def c3init : SchedState := ⟨[("A", pendingState "A" 1), ("B", pendingState "B" 1)], []⟩

def c3stA : TaskState :=
  applyResult (dispatchUpdate (pendingState "A" 1)) { status := some "failed" }

def c3mid : SchedState :=
  ⟨aupdate c3init.states "A" (dispatchUpdate (pendingState "A" 1)), ["A"]⟩

def c3s1 : SchedState := ⟨aupdate c3mid.states "A" c3stA, (["A"].erase "A")⟩

def c3s2 : SchedState := ⟨refreshBlockedStates c3s1.states c3deps, c3s1.running⟩

def c3stB : TaskState :=
  { pendingState "B" 1 with
    status := .blocked
    blockedBy := ["A"]
    blockedReason := some .failedDependency }

/-- Witness for `c3_failed_dependency_blocks`: after `A` fails once on the
two-task graph and a refresh runs, `B` is blocked on `A` with reason
`failed_dependency`, and stays blocked. -/
theorem c3_failed_dependency_blocks_witness :
    c3s2.states.lookup "A" = some c3stA
    ∧ blockableStatus c3stB.status
    ∧ (refreshBlockedStates c3s2.states c3deps).lookup "B"
        = some { c3stB with
            status := .blocked
            blockedBy := refreshBlockedBy c3s2.states c3deps "B"
            blockedReason := some .failedDependency }
    ∧ "A" ∈ refreshBlockedBy c3s2.states c3deps "B"
    ∧ c3stB.status = Status.blocked := by
  have h1 : SchedStep c3deps (fun _ _ => True) c3init c3mid :=
    SchedStep.dispatch c3init "A" (pendingState "A" 1) (by decide) (by decide)
      (by decide) (by decide)
  have h2 : SchedStep c3deps (fun _ _ => True) c3mid c3s1 :=
    SchedStep.complete c3mid "A" (dispatchUpdate (pendingState "A" 1))
      { status := some "failed" } (by decide) trivial (by decide)
  have h3 : SchedStep c3deps (fun _ _ => True) c3s1 c3s2 := SchedStep.refresh c3s1
  have hmain := c3_failed_dependency_blocks c3deps (fun _ _ => True) "A" "B"
    (by decide) (by decide) c3init
    ⟨by decide, by decide, fun tid ht => absurd ht (List.not_mem_nil tid)⟩
    (by
      intro tid st h
      rcases lookup_pair "A" "B" tid (pendingState "A" 1) (pendingState "B" 1) st h
        with ⟨_, h2⟩ | ⟨_, h2⟩ <;> subst h2 <;> rfl)
    c3s1
    (Relation.ReflTransGen.tail (Relation.ReflTransGen.tail Relation.ReflTransGen.refl h1) h2)
    c3stA (by decide) (Or.inl (by decide)) c3s2
    (Relation.ReflTransGen.tail Relation.ReflTransGen.refl h3)
  refine ⟨hmain.1, hmain.2.1 c3stB (by decide), (hmain.2.2.1 c3stB (by decide)).1,
    (hmain.2.2.1 c3stB (by decide)).2, ?_⟩
  exact hmain.2.2.2 ⟨refreshBlockedStates c3s2.states c3deps, c3s2.running⟩
    (SchedStep.refresh c3s2) c3stB (by decide) (by decide) c3stB (by decide)

/-! ## Claim C8: executor error handling -/

theorem normalize_unrecognized (r : ExecResult)
    (h : r.status = none ∨ ∀ v, r.status = some v →
      v ∉ (["done", "failed", "stopped", "paused"] : List String)) :
    normalizeResultStatus r = "failed" := by
  rcases hr : r.status with _ | v
  · simp [normalizeResultStatus, hr]
  · rcases h with h | h
    · rw [hr] at h
      exact Option.noConfusion h
    · have hv := h v hr
      simp only [List.mem_cons, List.not_mem_nil, or_false] at hv
      push_neg at hv
      obtain ⟨h1, h2, h3, h4⟩ := hv
      by_cases hve : v = ""
      · simp [normalizeResultStatus, hr, hve]
      · simp [normalizeResultStatus, hr, hve, h1, h2, h3, h4]

/-- C8.  A raised executor exception is converted at the call boundary to
`{status: failed, error: "executor error: <message>"}` (and a non-dict result
to a failed result as well); a dict result is passed through; and a result
whose `status` is missing or not one of `done/failed/stopped/paused` is
treated by `_apply_result` exactly as a failed result. -/
theorem c8_executor_errors :
    (∀ msg : String, safeExecute (.raised msg)
      = { status := some "failed", error := some ("executor error: " ++ msg) })
    ∧ (∀ r : ExecResult, safeExecute (.returned r) = r)
    ∧ safeExecute .nonDict
      = { status := some "failed", error := some "executor returned non-dict result" }
    ∧ (∀ (st : TaskState) (r : ExecResult),
      (r.status = none ∨ ∀ v, r.status = some v →
        v ∉ (["done", "failed", "stopped", "paused"] : List String)) →
      applyResult st r = applyResult st { r with status := some "failed" }) := by
  refine ⟨fun msg => rfl, fun r => rfl, rfl, ?_⟩
  intro st r h
  have h1 : normalizeResultStatus r = "failed" := normalize_unrecognized r h
  have h2 : normalizeResultStatus { r with status := some "failed" } = "failed" := rfl
  rw [applyResult, applyResult, h1, h2]

/-- Witness for `c8_executor_errors`: a raised exception and a result whose
status is the unrecognized string `"bananas"`. -/
theorem c8_executor_errors_witness :
    safeExecute (.raised "boom")
      = { status := some "failed", error := some "executor error: boom" }
    ∧ applyResult (pendingState "A" 1) { status := some "bananas", exitCode := some 3 }
      = applyResult (pendingState "A" 1)
          { status := some "failed", exitCode := some 3 } := by
  constructor
  · exact c8_executor_errors.1 "boom"
  · exact c8_executor_errors.2.2.2 (pendingState "A" 1)
      { status := some "bananas", exitCode := some 3 }
      (Or.inr (by intro v hv; rw [Option.some_inj] at hv; subst hv; decide))

/-! ## Claim C10: initial task states -/

/-- C10.  A graph task whose `status` field parses as one of the seven task
statuses starts the run in that status; a missing or unrecognized (or empty)
value is normalized to `pending`; and in every case the initial state has
`attempts = 0`, empty `blocked_by` and null error, exit code and timestamps.
`create_run_state` builds exactly these states for all tasks of the graph. -/
theorem c10_initial_state (task : Task) (retryLimit : Int) :
    (∀ s stat, task.statusField = some s → statusFromString s = some stat →
      (initialTaskState task retryLimit).status = stat)
    ∧ ((task.statusField = none
        ∨ ∀ s, task.statusField = some s → statusFromString s = none) →
      (initialTaskState task retryLimit).status = .pending)
    ∧ (∀ x : Status, statusFromString (statusToString x) = some x)
    ∧ (initialTaskState task retryLimit).attempts = 0
    ∧ (initialTaskState task retryLimit).blockedBy = []
    ∧ (initialTaskState task retryLimit).lastError = none
    ∧ (initialTaskState task retryLimit).lastExitCode = none
    ∧ (initialTaskState task retryLimit).lastStartedAt = none
    ∧ (initialTaskState task retryLimit).lastFinishedAt = none
    ∧ (∀ (g : Graph) (runId : Option String) (mp rl : Option Int) (fid : String)
        (run : RunStateModel), createRunState g runId mp rl fid = .ok run →
        run.taskStates = g.tasks.map fun t =>
          (t.taskId, initialTaskState t (rl.getD (g.orchestratorRetryLimit.getD 0)))) := by
  refine ⟨?_, ?_, fun x => by cases x <;> rfl, rfl, rfl, rfl, rfl, rfl, rfl, ?_⟩
  · intro s stat hs hparse
    show ((statusFromString (rawInitialStatus task)).getD .pending) = stat
    rw [rawInitialStatus, hs]
    dsimp only
    by_cases hse : s = ""
    · subst hse
      have hnone : statusFromString "" = none := rfl
      rw [hnone] at hparse
      exact Option.noConfusion hparse
    · rw [if_neg hse, hparse]
      rfl
  · intro h
    show ((statusFromString (rawInitialStatus task)).getD .pending) = .pending
    rcases hs : task.statusField with _ | s
    · rw [rawInitialStatus, hs]
      rfl
    · rcases h with h | h
      · rw [hs] at h
        exact Option.noConfusion h
      · rw [rawInitialStatus, hs]
        dsimp only
        by_cases hse : s = ""
        · rw [if_pos hse]
          rfl
        · rw [if_neg hse, h s hs]
          rfl
  · intro g runId mp rl fid run hok
    rw [createRunState] at hok
    split at hok
    · exact Except.noConfusion hok
    · split at hok
      · exact Except.noConfusion hok
      · injection hok with h
        rw [← h]

/-- Witness for `c10_initial_state`: a pre-labelled `paused` task, an
unrecognized label, and a missing label. -/
theorem c10_initial_state_witness :
    (initialTaskState { taskId := "T", statusField := some "paused" } 0).status = .paused
    ∧ (initialTaskState { taskId := "T", statusField := some "weird" } 0).status = .pending
    ∧ (initialTaskState { taskId := "T" } 5).status = .pending :=
  ⟨(c10_initial_state { taskId := "T", statusField := some "paused" } 0).1
      "paused" .paused rfl rfl,
   (c10_initial_state { taskId := "T", statusField := some "weird" } 0).2.1
      (Or.inr fun s hs => by
        rw [Option.some_inj] at hs
        subst hs
        rfl),
   (c10_initial_state { taskId := "T" } 5).2.1 (Or.inl rfl)⟩

/-! ## Claim C9: graph-build validation of dependencies -/

/-- The graph-build prefix of `run_task_graph` (`scheduler.py` 243-257):
`save_task_graph`'s graph-id check, then `build_task_index`,
`build_hard_dependencies` and `create_run_state`.  All validation performed
before the scheduling loop starts lives here. -/
def startRun (g : Graph) (runId : Option String)
    (maxParallelAgents retryLimit : Option Int) (fallbackId : String) :
    Except String (TaskIndex × Deps × RunStateModel) :=
  if (g.graphId.getD "") = "" then .error "task graph missing graph_id"
  else
    match buildTaskIndex g.tasks with
    | .error e => .error e
    | .ok tasksById =>
      match createRunState g runId maxParallelAgents retryLimit fallbackId with
      | .error e => .error e
      | .ok run => .ok (tasksById, buildHardDependencies g, run)

theorem foldl_preserves {α β : Type} (f : β → α → β) (P : β → Prop)
    (h : ∀ b a, P b → P (f b a)) : ∀ (l : List α) (b : β), P b → P (l.foldl f b)
  | [], _, hb => hb
  | a :: l, b, hb => foldl_preserves f P h l (f b a) (h b a hb)

theorem lookup_append_cases (l₁ l₂ : List (String × α)) (k : String) (v : α)
    (h : (l₁ ++ l₂).lookup k = some v) :
    l₁.lookup k = some v ∨ (l₁.lookup k = none ∧ l₂.lookup k = some v) := by
  induction l₁ with
  | nil => exact Or.inr ⟨rfl, h⟩
  | cons p l₁ ih =>
    obtain ⟨a, b⟩ := p
    by_cases hk : k = a
    · subst hk
      rw [List.cons_append, lookup_cons_eq] at h
      rw [lookup_cons_eq]
      exact Or.inl h
    · rw [List.cons_append, lookup_cons_ne a k b _ hk] at h
      rw [lookup_cons_ne a k b _ hk]
      exact ih h

theorem lookup_append_none (l₁ l₂ : List (String × α)) (k : String)
    (h : l₁.lookup k = none) : (l₁ ++ l₂).lookup k = l₂.lookup k := by
  induction l₁ with
  | nil => rfl
  | cons p l₁ ih =>
    obtain ⟨a, b⟩ := p
    by_cases hk : k = a
    · subst hk
      rw [lookup_cons_eq] at h
      exact Option.noConfusion h
    · rw [lookup_cons_ne a k b _ hk] at h
      rw [List.cons_append, lookup_cons_ne a k b _ hk]
      exact ih h

theorem lookup_init_deps : ∀ (tasks : List Task) (toTask : String) (l : List String),
    (tasks.map fun t => (t.taskId, ([] : List String))).lookup toTask = some l →
    l = [] := by
  intro tasks
  induction tasks with
  | nil =>
    intro toTask l h
    exact Option.noConfusion h
  | cons t ts ih =>
    intro toTask l h
    rw [List.map_cons] at h
    by_cases hk : toTask = t.taskId
    · subst hk
      rw [lookup_cons_eq] at h
      exact (Option.some_inj.mp h).symm
    · rw [lookup_cons_ne _ _ _ _ hk] at h
      exact ih toTask l h

/-- Every per-task predecessor list built by `build_hard_dependencies` is
duplicate-free: a repeated `hard_block` edge is silently dropped. -/
theorem buildHardDependencies_nodup (g : Graph) (toTask : String) (l : List String)
    (h : (buildHardDependencies g).lookup toTask = some l) : l.Nodup := by
  rw [buildHardDependencies] at h
  revert h
  refine foldl_preserves _
    (fun deps : Deps => ∀ (l : List String),
      deps.lookup toTask = some l → l.Nodup) ?_ _ _ ?_ l
  · intro deps dep hP l h
    obtain ⟨fromId, toId, dtype⟩ := dep
    dsimp only at h
    split at h
    · exact hP l h
    · rcases toId with _ | toT
      · exact hP l h
      · rcases fromId with _ | fromT
        · exact hP l h
        · dsimp only at h
          split at h
          · exact hP l h
          · set deps₁ := if (deps.lookup toT).isSome then deps
              else deps ++ [(toT, [])] with hdeps₁
            have hsome : (deps₁.lookup toT).isSome := by
              rw [hdeps₁]
              split
              · assumption
              · rename_i hnone
                have hn : deps.lookup toT = none := by
                  rcases ho : deps.lookup toT with _ | v
                  · rfl
                  · exact absurd (by rw [ho]; rfl) hnone
                rw [lookup_append_none deps [(toT, [])] toT hn, lookup_cons_eq]
                rfl
            have hP₁ : ∀ lx : List String, deps₁.lookup toTask = some lx → lx.Nodup := by
              intro lx hx
              rw [hdeps₁] at hx
              revert hx
              split
              · exact fun hx => hP lx hx
              · intro hx
                rcases lookup_append_cases deps [(toT, [])] toTask lx hx with hx | ⟨_, hx⟩
                · exact hP lx hx
                · rcases lookup_singleton toT toTask ([] : List String) lx hx with ⟨_, hv⟩
                  rw [hv]
                  exact List.nodup_nil
            split at h
            · exact hP₁ l h
            · rename_i hnotmem
              by_cases hk : toTask = toT
              · subst hk
                rw [lookup_aupdate_self deps₁ toTask _ hsome, Option.some_inj] at h
                rcases hc : deps₁.lookup toTask with _ | cur
                · rw [hc] at hsome
                  exact Bool.noConfusion hsome
                · rw [hc] at h hnotmem
                  simp only [Option.getD_some] at h hnotmem
                  rw [← h, List.nodup_append]
                  refine ⟨hP₁ cur hc, List.nodup_singleton fromT, ?_⟩
                  intro x hx hx'
                  rw [List.mem_singleton] at hx'
                  subst hx'
                  exact hnotmem hx
              · rw [lookup_aupdate_ne deps₁ toT _ toTask hk] at h
                exact hP₁ l h
  · intro l h
    rw [lookup_init_deps g.tasks toTask l h]
    exact List.nodup_nil

/-- C9 (amended).  Graph-build-time validation never inspects the dependency
list: replacing it (e.g. adding self-loops or duplicate edges) cannot change
whether the run is accepted; and instead of a validation error, duplicate
`hard_block` edges are silently dropped (every predecessor list is
duplicate-free) while self-loops are retained in the dependency map. -/
theorem c9_dependency_validation (g : Graph) (depEdges : List DepEdge)
    (runId : Option String) (mp rl : Option Int) (fid : String) :
    (startRun { g with dependencies := depEdges } runId mp rl fid).isOk
      = (startRun g runId mp rl fid).isOk
    ∧ (∀ (toTask : String) (l : List String),
        (buildHardDependencies g).lookup toTask = some l → l.Nodup) := by
  constructor
  · rw [startRun, startRun]
    have h3 : createRunState { g with dependencies := depEdges } runId mp rl fid
        = createRunState g runId mp rl fid := rfl
    rw [h3]
    have h1 : ({ g with dependencies := depEdges } : Graph).graphId = g.graphId := rfl
    rw [h1]
    have h2 : ({ g with dependencies := depEdges } : Graph).tasks = g.tasks := rfl
    rw [h2]
    by_cases hg : (g.graphId.getD "") = ""
    · rw [if_pos hg, if_pos hg]
    · rw [if_neg hg, if_neg hg]
      rcases buildTaskIndex g.tasks with e | idx
      · rfl
      · rcases createRunState g runId mp rl fid with e | run <;> rfl
  · exact fun toTask l h => buildHardDependencies_nodup g toTask l h

/-- A graph with a self-loop (`B → B`) and a duplicated edge (`A → B`
twice). -/
def c9Graph : Graph :=
  { graphId := some "g"
    tasks := [{ taskId := "A" }, { taskId := "B" }]
    dependencies :=
      [{ fromTaskId := some "B", toTaskId := some "B" },
       { fromTaskId := some "A", toTaskId := some "B" },
       { fromTaskId := some "A", toTaskId := some "B" }] }

/-- Witness for `c9_dependency_validation` at the self-loop/duplicate graph. -/
theorem c9_dependency_validation_witness :
    ((startRun { c9Graph with dependencies := [] } none none none "rid").isOk
      = (startRun c9Graph none none none "rid").isOk)
    ∧ (["B", "A"] : List String).Nodup :=
  ⟨(c9_dependency_validation c9Graph [] none none none "rid").1,
   (c9_dependency_validation c9Graph [] none none none "rid").2 "B" ["B", "A"]
     (by decide)⟩

/-- Counterexample to C9 as stated: the self-loop and the duplicated edge of
`c9Graph` are not rejected — the run starts, the duplicate is silently
deduplicated and the self-loop is kept in `B`'s predecessor list. -/
theorem c9_counterexample :
    (startRun c9Graph none none none "rid").isOk = true
    ∧ (buildHardDependencies c9Graph).lookup "B" = some ["B", "A"] := by
  constructor
  · rfl
  · rfl

/-! ## A deterministic model of `run_task_graph`'s loop (claims C4, C5)

The thread pool is modelled with one legal schedule: every in-flight attempt
completes at each `wait`.  The `uuid4` calls of `_emit_event` draw
successive values from a uuid supply `uuids : Nat → String`. -/

/-- The context handed to the executor at dispatch (`scheduler.py` 292-298). -/
structure ExecContext where
  runId : String
  taskId : String
  attempt : Nat
  maxAttempts : Int
  graphId : Option String
deriving Repr

/-- An orchestrator event as built by `_emit_event` (`scheduler.py` 186-195);
payload values are stringified. -/
structure OrchestratorEvent where
  eventId : String
  runId : String
  taskId : Option String
  eventType : String
  payload : List (String × String)
  createdAt : String
deriving DecidableEq, Repr

/-- `_emit_event` + `append_orchestrator_event` (`state.py` 309-314): append
the event verbatim; `event_id = str(uuid.uuid4())` is the next value of the
uuid supply. -/
def emitEvent (uuids : Nat → String) (runId : String) (eventType : String)
    (taskId : Option String) (payload : List (String × String))
    (events : List OrchestratorEvent) (uuidIdx : Nat) :
    List OrchestratorEvent × Nat :=
  (events ++ [{ eventId := uuids uuidIdx
                runId := runId
                taskId := taskId
                eventType := eventType
                payload := payload
                createdAt := nowUtc }], uuidIdx + 1)

/-- The loop state: task states, in-flight `(task_id, attempt)` pairs, the
event log so far and the uuid cursor. -/
structure LoopSt where
  states : States
  running : List (String × Nat)
  events : List OrchestratorEvent
  uuidIdx : Nat
deriving Repr

/-- Dispatch of one task of the selected batch (`scheduler.py` 283-307). -/
def dispatchOne (runId : String) (uuids : Nat → String) (acc : LoopSt)
    (tid : String) : LoopSt :=
  match acc.states.lookup tid with
  | none => acc
  | some s =>
    if s.status ≠ .pending then acc
    else
      let s' := dispatchUpdate s
      let ev := emitEvent uuids runId "task_started" (some tid)
        [("attempt", toString s'.attempts)] acc.events acc.uuidIdx
      { states := aupdate acc.states tid s'
        running := acc.running ++ [(tid, s'.attempts)]
        events := ev.1
        uuidIdx := ev.2 }

def dispatchSelected (runId : String) (uuids : Nat → String)
    (runnable : List String) (st : LoopSt) : LoopSt :=
  runnable.foldl (dispatchOne runId uuids) st

/-- Result application for one completed attempt (`scheduler.py` 323-338). -/
def completeOne (tasksById : TaskIndex) (runId : String) (graphId : Option String)
    (uuids : Nat → String) (exec : Task → ExecContext → ExecOutcome)
    (acc : LoopSt) (entry : String × Nat) : LoopSt :=
  match acc.states.lookup entry.1 with
  | none => acc
  | some s =>
    let ctx : ExecContext := { runId := runId
                               taskId := entry.1
                               attempt := entry.2
                               maxAttempts := s.maxAttempts
                               graphId := graphId }
    let task := (tasksById.lookup entry.1).getD { taskId := entry.1 }
    let result := safeExecute (exec task ctx)
    let s' := applyResult s result
    let ev := emitEvent uuids runId "task_finished" (some entry.1)
      [("status", statusToString s'.status), ("attempt", toString s'.attempts),
       ("error", s'.lastError.getD "null")] acc.events acc.uuidIdx
    { states := aupdate acc.states entry.1 s'
      running := acc.running
      events := ev.1
      uuidIdx := ev.2 }

/-- The all-complete schedule: every in-flight attempt finishes at the wait. -/
def completeAll (tasksById : TaskIndex) (runId : String) (graphId : Option String)
    (uuids : Nat → String) (exec : Task → ExecContext → ExecOutcome)
    (st : LoopSt) : LoopSt :=
  let st' := st.running.foldl (completeOne tasksById runId graphId uuids exec) st
  { st' with running := [] }

/-- The slot-filling half of one loop pass (`scheduler.py` 273-309). -/
def loopSchedule (tasksById : TaskIndex) (hardDeps : Deps) (maxParallel : Int)
    (runId : String) (uuids : Nat → String) (st : LoopSt) : LoopSt :=
  let st := { st with states := refreshBlockedStates st.states hardDeps }
  let availableSlots : Int := maxParallel - st.running.length
  if 0 < availableSlots then
    dispatchSelected runId uuids
      (selectRunnableTasks tasksById st.states hardDeps (st.running.map Prod.fst)
        availableSlots.toNat) st
  else st

/-- One pass of the `while True` body (`scheduler.py` 272-340).  Returns the
new state and whether the loop exited. -/
def loopBody (tasksById : TaskIndex) (hardDeps : Deps) (maxParallel : Int)
    (runId : String) (graphId : Option String) (uuids : Nat → String)
    (exec : Task → ExecContext → ExecOutcome) (st : LoopSt) : LoopSt × Bool :=
  let st := loopSchedule tasksById hardDeps maxParallel runId uuids st
  if st.running = [] then
    let st := { st with states := refreshBlockedStates st.states hardDeps }
    if selectRunnableTasks tasksById st.states hardDeps [] 1 = [] then (st, true)
    else (st, false)
  else
    (completeAll tasksById runId graphId uuids exec st, false)

def loopRun (tasksById : TaskIndex) (hardDeps : Deps) (maxParallel : Int)
    (runId : String) (graphId : Option String) (uuids : Nat → String)
    (exec : Task → ExecContext → ExecOutcome) :
    Nat → LoopSt → Option LoopSt
  | 0, _ => none
  | fuel + 1, st =>
    match loopBody tasksById hardDeps maxParallel runId graphId uuids exec st with
    | (st', true) => some st'
    | (st', false) =>
      loopRun tasksById hardDeps maxParallel runId graphId uuids exec fuel st'

structure ModelOutcome where
  run : RunStateModel
  events : List OrchestratorEvent
deriving Repr

/-- `run_task_graph` (`scheduler.py` 243-347) under the all-complete
schedule; `none` for `exec` is the default always-`done` executor. -/
def runTaskGraphModel (g : Graph) (exec : Option (Task → ExecContext → ExecOutcome))
    (runId : Option String) (maxParallelAgents retryLimit : Option Int)
    (uuids : Nat → String) (fallbackId : String) (fuel : Nat) :
    Except String ModelOutcome :=
  match startRun g runId maxParallelAgents retryLimit fallbackId with
  | .error e => .error e
  | .ok (tasksById, hardDeps, run) =>
    let exec := exec.getD fun _ _ => .returned { status := some "done" }
    let ev0 := emitEvent uuids run.id "run_started" none
      [("graph_id", run.graphId.getD "null")] [] 0
    let states := refreshBlockedStates run.taskStates hardDeps
    match loopRun tasksById hardDeps run.maxParallelAgents run.id run.graphId
        uuids exec fuel
        { states := states, running := [], events := ev0.1, uuidIdx := ev0.2 } with
    | none => .error "model: fuel exhausted"
    | some st =>
      let finalStatus := finalRunStatus st.states
      let ev1 := emitEvent uuids run.id "run_finished" none
        [("status", finalStatus)] st.events st.uuidIdx
      .ok { run := { run with status := finalStatus, taskStates := st.states }
            events := ev1.1 }

/-! ## Claim C5: event-log ids -/

/-- The event log holds, in order, one event per uuid drawn: the `i`-th
appended event carries the `i`-th `uuid4` value. -/
def EventsIndexed (uuids : Nat → String) (events : List OrchestratorEvent)
    (idx : Nat) : Prop :=
  idx = events.length
    ∧ ∀ i (h : i < events.length), (events.get ⟨i, h⟩).eventId = uuids i

theorem eventsIndexed_push (uuids : Nat → String)
    (events : List OrchestratorEvent) (idx : Nat) (ev : OrchestratorEvent)
    (h : EventsIndexed uuids events idx) (hev : ev.eventId = uuids idx) :
    EventsIndexed uuids (events ++ [ev]) (idx + 1) := by
  obtain ⟨hlen, hids⟩ := h
  constructor
  · simp [hlen]
  · intro i hi
    have hi2 : i < events.length + 1 := by simpa using hi
    by_cases hlt : i < events.length
    · rw [List.get_append i hlt]
      exact hids i hlt
    · have hieq : i = events.length := by omega
      subst hieq
      have hget : (events ++ [ev]).get ⟨events.length, hi⟩ = ev := by simp
      rw [hget, hev, hlen]

theorem eventsIndexed_emit (uuids : Nat → String) (runId ty : String)
    (tid : Option String) (payload : List (String × String))
    (events : List OrchestratorEvent) (idx : Nat)
    (h : EventsIndexed uuids events idx) :
    EventsIndexed uuids (emitEvent uuids runId ty tid payload events idx).1
      (emitEvent uuids runId ty tid payload events idx).2 :=
  eventsIndexed_push uuids events idx _ h rfl

def LoopEventsOK (uuids : Nat → String) (st : LoopSt) : Prop :=
  EventsIndexed uuids st.events st.uuidIdx

theorem dispatchOne_eventsOK (runId : String) (uuids : Nat → String)
    (acc : LoopSt) (tid : String) (h : LoopEventsOK uuids acc) :
    LoopEventsOK uuids (dispatchOne runId uuids acc tid) := by
  rw [dispatchOne]
  rcases acc.states.lookup tid with _ | s
  · exact h
  · dsimp only
    split
    · exact h
    · exact eventsIndexed_emit uuids runId "task_started" (some tid) _ acc.events
        acc.uuidIdx h

theorem completeOne_eventsOK (tasksById : TaskIndex) (runId : String)
    (graphId : Option String) (uuids : Nat → String)
    (exec : Task → ExecContext → ExecOutcome) (acc : LoopSt)
    (entry : String × Nat) (h : LoopEventsOK uuids acc) :
    LoopEventsOK uuids
      (completeOne tasksById runId graphId uuids exec acc entry) := by
  rw [completeOne]
  rcases acc.states.lookup entry.1 with _ | s
  · exact h
  · exact eventsIndexed_emit uuids runId "task_finished" (some entry.1) _
      acc.events acc.uuidIdx h

theorem dispatchSelected_eventsOK (runId : String) (uuids : Nat → String)
    (runnable : List String) (st : LoopSt) (h : LoopEventsOK uuids st) :
    LoopEventsOK uuids (dispatchSelected runId uuids runnable st) :=
  foldl_preserves (dispatchOne runId uuids) (LoopEventsOK uuids)
    (fun acc tid hacc => dispatchOne_eventsOK runId uuids acc tid hacc)
    runnable st h

theorem completeAll_eventsOK (tasksById : TaskIndex) (runId : String)
    (graphId : Option String) (uuids : Nat → String)
    (exec : Task → ExecContext → ExecOutcome) (st : LoopSt)
    (h : LoopEventsOK uuids st) :
    LoopEventsOK uuids (completeAll tasksById runId graphId uuids exec st) :=
  foldl_preserves (completeOne tasksById runId graphId uuids exec)
    (LoopEventsOK uuids)
    (fun acc entry hacc =>
      completeOne_eventsOK tasksById runId graphId uuids exec acc entry hacc)
    st.running st h

theorem loopSchedule_eventsOK (tasksById : TaskIndex) (hardDeps : Deps)
    (maxParallel : Int) (runId : String) (uuids : Nat → String) (st : LoopSt)
    (h : LoopEventsOK uuids st) :
    LoopEventsOK uuids (loopSchedule tasksById hardDeps maxParallel runId uuids st) := by
  rw [loopSchedule]
  dsimp only
  split
  · exact dispatchSelected_eventsOK runId uuids _ _ h
  · exact h

theorem loopBody_eventsOK (tasksById : TaskIndex) (hardDeps : Deps)
    (maxParallel : Int) (runId : String) (graphId : Option String)
    (uuids : Nat → String) (exec : Task → ExecContext → ExecOutcome)
    (st : LoopSt) (h : LoopEventsOK uuids st) :
    LoopEventsOK uuids
      (loopBody tasksById hardDeps maxParallel runId graphId uuids exec st).1 := by
  rw [loopBody]
  have hS := loopSchedule_eventsOK tasksById hardDeps maxParallel runId uuids st h
  dsimp only
  split
  · split
    · exact hS
    · exact hS
  · exact completeAll_eventsOK tasksById runId graphId uuids exec _ hS

theorem loopRun_eventsOK (tasksById : TaskIndex) (hardDeps : Deps)
    (maxParallel : Int) (runId : String) (graphId : Option String)
    (uuids : Nat → String) (exec : Task → ExecContext → ExecOutcome) :
    ∀ (fuel : Nat) (st st' : LoopSt), LoopEventsOK uuids st →
    loopRun tasksById hardDeps maxParallel runId graphId uuids exec fuel st
      = some st' → LoopEventsOK uuids st' := by
  intro fuel
  induction fuel with
  | zero =>
    intro st st' _ h
    exact Option.noConfusion h
  | succ fuel ih =>
    intro st st' hok h
    rw [loopRun] at h
    rcases hb : loopBody tasksById hardDeps maxParallel runId graphId uuids exec st
      with ⟨st₁, fin⟩
    have hok₁ : LoopEventsOK uuids st₁ := by
      have := loopBody_eventsOK tasksById hardDeps maxParallel runId graphId
        uuids exec st hok
      rw [hb] at this
      exact this
    rw [hb] at h
    rcases fin with _ | _
    · exact ih st₁ st' hok₁ h
    · exact (Option.some_inj.mp h) ▸ hok₁

theorem eventsIndexed_nil (uuids : Nat → String) :
    EventsIndexed uuids [] 0 :=
  ⟨rfl, fun _ h => absurd h (by simp)⟩

/-- C5.  Every event appended during a run carries as `event_id` the next
value of the `uuid4` stream: the `i`-th event of the log (0-based, from
`run_started` to `run_finished`) has `event_id = uuids i`.  The ids are thus
fresh uuid strings in emission order — not integers counted from 1. -/
theorem c5_event_ids (g : Graph) (exec : Option (Task → ExecContext → ExecOutcome))
    (runId : Option String) (mpa rl : Option Int) (uuids : Nat → String)
    (fallbackId : String) (fuel : Nat) (out : ModelOutcome)
    (hout : runTaskGraphModel g exec runId mpa rl uuids fallbackId fuel
      = .ok out) :
    ∀ i (h : i < out.events.length), (out.events.get ⟨i, h⟩).eventId = uuids i := by
  unfold runTaskGraphModel at hout
  split at hout
  · exact Except.noConfusion hout
  · rename_i tasksById hardDeps run heq0
    dsimp only at hout
    split at hout
    · exact Except.noConfusion hout
    · rename_i st heq1
      rw [Except.ok.injEq] at hout
      subst hout
      have hok0 : LoopEventsOK uuids
          { states := refreshBlockedStates run.taskStates hardDeps
            running := []
            events := (emitEvent uuids run.id "run_started" none
              [("graph_id", run.graphId.getD "null")] [] 0).1
            uuidIdx := (emitEvent uuids run.id "run_started" none
              [("graph_id", run.graphId.getD "null")] [] 0).2 } :=
        eventsIndexed_emit uuids run.id "run_started" none
          [("graph_id", run.graphId.getD "null")] [] 0 (eventsIndexed_nil uuids)
      have hokst := loopRun_eventsOK tasksById hardDeps
        run.maxParallelAgents run.id run.graphId uuids _ fuel _ st hok0 heq1
      exact (eventsIndexed_emit uuids run.id "run_finished" none
        [("status", finalRunStatus st.states)] st.events st.uuidIdx hokst).2

/-- A concrete uuid supply shaped like `uuid.uuid4()` output. -/
def c5uuids : Nat → String :=
  fun n => "f47ac10b-58cc-4372-a567-0e02b2c3d47" ++ toString n

def c5Graph : Graph :=
  { graphId := some "g5", tasks := [{ taskId := "a" }] }

/-- The model outcome of running `c5Graph` with the default executor. -/
def c5out : ModelOutcome :=
  match runTaskGraphModel c5Graph none (some "run-5") none none c5uuids "fb" 4 with
  | .ok o => o
  | .error _ =>
    { run := { id := "", graphId := none, status := "", maxParallelAgents := 0,
               retryLimit := 0, taskStates := [] }
      events := [] }

/-- Witness for `c5_event_ids` on a one-task run: its first and last events
carry the first and fourth uuid values. -/
theorem c5_event_ids_witness :
    runTaskGraphModel c5Graph none (some "run-5") none none c5uuids "fb" 4
      = .ok c5out
    ∧ (c5out.events.get ⟨0, by decide⟩).eventId = c5uuids 0
    ∧ (c5out.events.get ⟨3, by decide⟩).eventId = c5uuids 3 :=
  ⟨rfl,
   c5_event_ids c5Graph none (some "run-5") none none c5uuids "fb" 4 c5out rfl
     0 (by decide),
   c5_event_ids c5Graph none (some "run-5") none none c5uuids "fb" 4 c5out rfl
     3 (by decide)⟩

/-- The event ids of a run are the uuid strings drawn by `_emit_event`
(`event_id = str(uuid.uuid4())`, `scheduler.py` 188), not the integers
1, 2, 3, ... claimed by the spec. -/
theorem c5_counterexample :
    c5out.events.map OrchestratorEvent.eventId
      = ["f47ac10b-58cc-4372-a567-0e02b2c3d470",
         "f47ac10b-58cc-4372-a567-0e02b2c3d471",
         "f47ac10b-58cc-4372-a567-0e02b2c3d472",
         "f47ac10b-58cc-4372-a567-0e02b2c3d473"]
    ∧ c5out.events.map OrchestratorEvent.eventId ≠ ["1", "2", "3", "4"] := by
  refine ⟨rfl, ?_⟩
  decide

/-! ## Claim C4: final run status -/

/-- Spec side: the final-status precedence exactly as the spec words it. -/
def claimFinalRunStatus (σ : States) : String :=
  if ∀ p ∈ σ, p.2.status = Status.done then "completed"
  else if ∃ p ∈ σ, p.2.status = Status.failed then "failed"
  else if ∃ p ∈ σ, p.2.status = Status.stopped then "cancelled"
  else if (∃ p ∈ σ, p.2.status = Status.paused)
      ∧ ¬ (∃ p ∈ σ, p.2.status = Status.pending)
      ∧ ¬ (∃ p ∈ σ, p.2.status = Status.blocked)
      ∧ ¬ (∃ p ∈ σ, p.2.status = Status.running) then "paused"
  else if ∀ p ∈ σ, p.2.status = Status.blocked then "failed"
  else "running"

/-- C4 (precedence half).  `_final_run_status` (`scheduler.py` 228-240)
computes exactly the spec's precedence: completed if all done, else failed if
any failed, else cancelled if any stopped, else paused if some paused and
none pending/blocked/running, else failed if all blocked, else running.
The claim's further assertion that the `running` outcome is never produced
at loop exit is refuted separately. -/
theorem c4_final_status (σ : States) : finalRunStatus σ = claimFinalRunStatus σ := by
  rw [finalRunStatus, claimFinalRunStatus]
  refine if_congr ?_ rfl (if_congr ?_ rfl (if_congr ?_ rfl
    (if_congr ?_ rfl (if_congr ?_ rfl rfl))))
  · simp [List.all_eq_true]
    constructor
    · intro h a b hm
      exact h b.status a b hm rfl
    · intro h x a b hm hs
      rw [← hs]
      exact h a b hm
  · simp
  · simp
  · simp [not_or]
    intro _ _ _ _
    tauto
  · simp [List.all_eq_true]
    constructor
    · intro h a b hm
      exact h b.status a b hm rfl
    · intro h x a b hm hs
      rw [← hs]
      exact h a b hm

/-- A graph whose task `b` hard-depends on itself while `a` is ordinary. -/
def c4Graph : Graph :=
  { graphId := some "g4",
    tasks := [{ taskId := "a" }, { taskId := "b" }],
    dependencies := [{ fromTaskId := some "b", toTaskId := some "b" }] }

/-- The scheduler loop exits (the run finishes) on `c4Graph` with `a` done
and `b` permanently blocked, and the final run status IS `running` — the
outcome the claim says is never produced at loop exit. -/
theorem c4_counterexample :
    (runTaskGraphModel c4Graph none (some "run-4") none none
        (fun n => toString n) "fb" 8).toOption.map (fun o => o.run.status)
      = some "running"
    ∧ (runTaskGraphModel c4Graph none (some "run-4") none none
        (fun n => toString n) "fb" 8).toOption.map
          (fun o => o.run.taskStates.map fun p => (p.1, statusToString p.2.status))
      = some [("a", "done"), ("b", "blocked")] :=
  ⟨rfl, rfl⟩

/-! ## Claim C7: durable pause/stop intents (`runtime_control.py`) -/

/-- The durable task-control record (`_default_control`, 18-30). -/
structure TaskControl where
  taskId : String
  status : String
  pauseRequested : Bool
  stopRequested : Bool
  activePhase : Option String
  attempt : Int
  lastAction : Option String
  lastActionAt : Option String
  updatedAt : String
deriving DecidableEq, Repr

def defaultControl (taskId : String) : TaskControl :=
  { taskId := taskId, status := "pending", pauseRequested := false,
    stopRequested := false, activePhase := none, attempt := 0,
    lastAction := none, lastActionAt := none, updatedAt := nowUtc }

/-- One `_ACTIVE_PROCESSES` entry (61-79); `alive` models whether
`os.killpg` reaches the process group (`ProcessLookupError` otherwise). -/
structure ActiveEntry where
  pid : Nat
  alive : Bool
  phase : String
  attempt : Int
  paused : Bool
  stopRequested : Bool
  stopRequestedAt : Option String
deriving DecidableEq, Repr

/-- The slice of durable + in-memory runtime-control state for one task id
(`task_controls/<id>.json`, `_ACTIVE_PROCESSES[id]`, and the signals
delivered to its process group, in order). -/
structure RCState where
  control : Option TaskControl
  active : Option ActiveEntry
  sent : List Int
deriving DecidableEq, Repr

def sigkill : Int := 9
def sigterm : Int := 15
def sigcont : Int := 18
def sigstop : Int := 19

/-- `_signal_process` (47-58), posix path: deliver iff the group exists. -/
def signalProcess (st : RCState) (p : ActiveEntry) (signum : Int) :
    Bool × RCState :=
  if p.alive then (true, { st with sent := st.sent ++ [signum] }) else (false, st)

/-- `get_task_control` (33-38): create-and-save the default on first read. -/
def getTaskControl (st : RCState) (taskId : String) : TaskControl × RCState :=
  match st.control with
  | some c => (c, st)
  | none =>
    let c := defaultControl taskId
    (c, { st with control := some c })

/-- `register_active_process` (61-87). -/
def registerActiveProcess (st : RCState) (taskId phase : String)
    (attempt : Int) (pid : Nat) (alive : Bool) : RCState :=
  let pr := getTaskControl st taskId
  let control := { pr.1 with
    status := "running"
    activePhase := some phase
    attempt := max pr.1.attempt attempt
    stopRequested := false
    lastAction := some "start"
    lastActionAt := some nowUtc }
  let active : ActiveEntry :=
    { pid := pid
      alive := alive
      phase := phase
      attempt := control.attempt
      paused := false
      stopRequested := false
      stopRequestedAt := none }
  let st := { pr.2 with active := some active }
  if control.pauseRequested then
    let sr := signalProcess st active sigstop
    if sr.1 then
      { sr.2 with
        control := some { control with status := "paused", updatedAt := nowUtc }
        active := some { active with paused := true } }
    else { sr.2 with control := some { control with updatedAt := nowUtc } }
  else { st with control := some { control with updatedAt := nowUtc } }

structure ActionResult where
  ok : Bool
  statusCode : Int
  errorCode : Option String
  appliedToActive : Bool
deriving DecidableEq, Repr

/-- `apply_task_action` (153-202). -/
def applyTaskAction (st : RCState) (taskId action : String) :
    ActionResult × RCState :=
  if ¬ (["pause", "resume", "stop"].contains action) then
    ({ ok := false, statusCode := 400, errorCode := some "INVALID_ACTION",
       appliedToActive := false }, st)
  else
    let pr := getTaskControl st taskId
    let step :
        TaskControl × Option ActiveEntry × RCState × Bool :=
      if action = "pause" then
        let control := { pr.1 with pauseRequested := true, status := "paused" }
        match pr.2.active with
        | some a =>
          if a.paused = false then
            let sr := signalProcess pr.2 a sigstop
            if sr.1 then (control, some { a with paused := true }, sr.2, true)
            else (control, some a, sr.2, false)
          else (control, some a, pr.2, false)
        | none => (control, none, pr.2, false)
      else if action = "resume" then
        let control := { pr.1 with pauseRequested := false }
        match pr.2.active with
        | some a =>
          if a.paused then
            let sr := signalProcess pr.2 a sigcont
            if sr.1 then
              ({ control with status := "running" },
               some { a with paused := false }, sr.2, true)
            else (control, some a, sr.2, false)
          else if control.status = "paused" then
            ({ control with status := "pending" }, some a, pr.2, false)
          else (control, some a, pr.2, false)
        | none =>
          if control.status = "paused" then
            ({ control with status := "pending" }, none, pr.2, false)
          else (control, none, pr.2, false)
      else
        let control :=
          { pr.1 with
            stopRequested := true
            pauseRequested := false
            status := "stopped" }
        match pr.2.active with
        | some a =>
          let cont :=
            if a.paused then
              let sr := signalProcess pr.2 a sigcont
              (({ a with paused := false } : ActiveEntry), sr.2)
            else (a, pr.2)
          let sr := signalProcess cont.2 cont.1 sigterm
          if sr.1 then
            (control,
             some { cont.1 with
                    stopRequested := true
                    stopRequestedAt := some nowUtc },
             sr.2, true)
          else (control, some cont.1, sr.2, false)
        | none => (control, none, pr.2, false)
    let control :=
      { step.1 with
        lastAction := some action
        lastActionAt := some nowUtc
        updatedAt := nowUtc }
    ({ ok := true, statusCode := 200, errorCode := none,
       appliedToActive := step.2.2.2 },
     { step.2.2.1 with control := some control, active := step.2.1 })

/-- C7 (pause half).  A pause intent issued while no process is active is
durably recorded, and a later registration honors it: the fresh process is
suspended with SIGSTOP, the entry is marked paused, and the control record
keeps `pause_requested = true` with status `paused`. -/
theorem c7_pause_intent_survives (st : RCState) (taskId phase : String)
    (attempt : Int) (pid : Nat) (hnoactive : st.active = none) :
    ∃ c a,
      (registerActiveProcess (applyTaskAction st taskId "pause").2
          taskId phase attempt pid true).control = some c
      ∧ (registerActiveProcess (applyTaskAction st taskId "pause").2
          taskId phase attempt pid true).active = some a
      ∧ c.pauseRequested = true ∧ c.status = "paused" ∧ a.paused = true
      ∧ sigstop ∈ (registerActiveProcess (applyTaskAction st taskId "pause").2
          taskId phase attempt pid true).sent := by
  obtain ⟨oc, oa, osent⟩ := st
  dsimp only at hnoactive
  subst hnoactive
  cases oc with
  | none =>
    simp [registerActiveProcess, applyTaskAction, getTaskControl, signalProcess,
      defaultControl]
  | some c =>
    simp [registerActiveProcess, applyTaskAction, getTaskControl, signalProcess,
      defaultControl]

/-- A task id with no durable control record and no active process. -/
def c7st0 : RCState := { control := none, active := none, sent := [] }

/-- Witness for `c7_pause_intent_survives` on the empty runtime state. -/
theorem c7_pause_intent_survives_witness :
    c7st0.active = none
    ∧ ∃ c a,
      (registerActiveProcess (applyTaskAction c7st0 "t" "pause").2
          "t" "build" 1 7 true).control = some c
      ∧ (registerActiveProcess (applyTaskAction c7st0 "t" "pause").2
          "t" "build" 1 7 true).active = some a
      ∧ c.pauseRequested = true ∧ c.status = "paused" ∧ a.paused = true
      ∧ sigstop ∈ (registerActiveProcess (applyTaskAction c7st0 "t" "pause").2
          "t" "build" 1 7 true).sent :=
  ⟨rfl, c7_pause_intent_survives c7st0 "t" "build" 1 7 rfl⟩

/-- A stop intent recorded while no process is active (`stop_requested =
true`, status `stopped`) does NOT survive registration:
`register_active_process` (`runtime_control.py` 67) resets
`stop_requested` to `False` and marks the task running. -/
theorem c7_counterexample :
    (applyTaskAction c7st0 "t" "stop").2.control.map TaskControl.stopRequested
      = some true
    ∧ (applyTaskAction c7st0 "t" "stop").2.control.map TaskControl.status
      = some "stopped"
    ∧ (registerActiveProcess (applyTaskAction c7st0 "t" "stop").2
        "t" "build" 1 7 true).control.map TaskControl.stopRequested = some false
    ∧ (registerActiveProcess (applyTaskAction c7st0 "t" "stop").2
        "t" "build" 1 7 true).control.map TaskControl.status = some "running"
    ∧ (registerActiveProcess (applyTaskAction c7st0 "t" "stop").2
        "t" "build" 1 7 true).control.map TaskControl.lastAction
      = some (some "start") :=
  ⟨rfl, rfl, rfl, rfl, rfl⟩

/-! ## Claim C6: pause time vs. timeout (`execution.py` 417-505) -/

/-- Outcome of one supervised attempt's poll loop, tagged with the poll time
at which it exited. -/
inductive PollOutcome where
  | finished : Nat → PollOutcome
  | timedOut : Nat → PollOutcome
deriving DecidableEq, Repr

/-- The poll loop of `_execute_logged_command_with_runtime_control`
(`execution.py` 457-474) in discrete time: one tick per 0.1-second poll.
`work` is the number of unpaused ticks the command needs; `pausedFn t` is
the durable pause flag observed at tick `t` (a paused process group makes
no progress).  Each iteration, in source order: exit if the process has
finished; read the pause flag, recording `paused_since` at a pause and
adding the paused duration to the deadline at a resume (lines 462-466);
time out if the current time has reached the deadline (line 470); sleep. -/
def pollLoopAux (work : Nat) (pausedFn : Nat → Bool) :
    Nat → Nat → Int → Option Nat → Nat → Option PollOutcome
  | 0, _, _, _, _ => none
  | fuel + 1, t, deadline, pausedSince, progress =>
    if work ≤ progress then some (.finished t)
    else
      let paused := pausedFn t
      let upd : Int × Option Nat :=
        if paused then
          (deadline, if pausedSince = none then some t else pausedSince)
        else
          match pausedSince with
          | some p => (deadline + ((t : Int) - (p : Int)), none)
          | none => (deadline, none)
      if upd.1 ≤ (t : Int) then some (.timedOut t)
      else
        pollLoopAux work pausedFn fuel (t + 1) upd.1 upd.2
          (progress + if paused then 0 else 1)

/-- An attempt supervised with `timeout_sec = timeoutSec`, starting at time
0 with `deadline = start + timeout_sec` (line 439) and no pause recorded. -/
def executeWithRuntimeControl (work timeoutSec : Nat) (pausedFn : Nat → Bool)
    (fuel : Nat) : Option PollOutcome :=
  pollLoopAux work pausedFn fuel 0 (timeoutSec : Int) none 0


/-- C6.  A command needing 2 unpaused ticks under a 5-tick timeout finishes
at tick 2 when never paused, and a pause that ends before the original
deadline (ticks 1-3) is properly excluded from the budget (the attempt
finishes at tick 5).  But pausing from tick 1 until tick 10 makes the very
same attempt end `timeout` at tick 5 — while still paused, having consumed
only 1 tick of unpaused run time.  The deadline is extended only at the
resume transition (`execution.py` 464-466) while the timeout check
(line 470) keeps running during the pause, so an attempt CAN time out
solely because of time spent paused, contradicting the claim. -/
theorem c6_pause_timeout_bug :
    executeWithRuntimeControl 2 5 (fun t => decide (1 ≤ t ∧ t < 10)) 40
      = some (.timedOut 5)
    ∧ executeWithRuntimeControl 2 5 (fun _ => false) 40
      = some (.finished 2)
    ∧ executeWithRuntimeControl 2 5 (fun t => decide (1 ≤ t ∧ t < 4)) 40
      = some (.finished 5) :=
  ⟨rfl, rfl, rfl⟩
